import Mathlib

/-!
Shallow embedding of the core of `mcvqoe.intelligibility`
(`src/mcvqoe/intelligibility/intelligibility.py` and
`src/mcvqoe/intelligibility/intelligibility_eval.py`).

Strings from the Python side are modelled as `List Char`; Python exceptions
are modelled with an explicit error type `PyErr`; NumPy `nan` scores are
modelled as `Option ℚ` with `none` standing for `nan`; machine floats that
the code only moves around (never does arithmetic on, except means handled
over `ℚ`) are modelled as exact rationals.
-/

/-- Convert a Lean string literal to the `List Char` representation used for
Python strings throughout this development. -/
def cl (s : String) : List Char := s.toList

/-- Python exception values raised by the embedded code.  Each constructor
carries the message text. -/
inductive PyErr : Type where
  | valueError (msg : String) : PyErr
  | runtimeError (msg : String) : PyErr
  | keyError (msg : String) : PyErr
  | indexError (msg : String) : PyErr
  | floatingPointError (msg : String) : PyErr
  deriving Repr, DecidableEq

/-- Check whether an error is a `RuntimeError`. -/
def PyErr.isRuntime : PyErr → Bool
  | .runtimeError _ => true
  | _ => false

/-- Check whether an error is a `ValueError`. -/
def PyErr.isValue : PyErr → Bool
  | .valueError _ => true
  | _ => false

/-- Check whether an error is a `KeyError`. -/
def PyErr.isKey : PyErr → Bool
  | .keyError _ => true
  | _ => false

/-! ## ChannelStringCodec
Embedding of `chans_to_string` (intelligibility.py lines 35-40) and
`parse_audio_chans` (lines 43-52). -/

/-- Python argument that may be a tuple of strings or a bare `str`; the source
guards `chans_to_string` against `str` input, and the `post_process` fallback
actually passes a `str` (the `('rx_voice')` slip), so the distinction is
observable. -/
inductive ChanArg : Type where
  | tup (chans : List (List Char)) : ChanArg
  | str (s : List Char) : ChanArg
  deriving Repr, DecidableEq

/-- Pure part of `chans_to_string` on an actual sequence of labels:
`'('+(';'.join(chans))+')'`. -/
def chansToStringT (chans : List (List Char)) : List Char :=
  '(' :: (List.intercalate [';'] chans) ++ [')']

/-- Embedding of `chans_to_string` (intelligibility.py lines 35-40): raises
`ValueError` when handed a bare string, otherwise joins the labels with `;`
inside parentheses. -/
def chans_to_string (chans : ChanArg) : Except PyErr (List Char) :=
  match chans with
  | .str _ => .error (.valueError "Input can not be str")
  | .tup l => .ok (chansToStringT l)

/-- Leftmost match of the regex `\(([^)]+)\)` used by
`parse_audio_chans`: returns the contents of the first `(...)` group whose
body is a non-empty run of non-`')'` characters followed by `')'`. -/
def reSearchParens : List Char → Option (List Char)
  | [] => none
  | c :: rest =>
    if c = '(' then
      let run := rest.takeWhile (fun x => x ≠ ')')
      if run ≠ [] ∧ rest.drop run.length ≠ [] then
        some run
      else
        reSearchParens rest
    else
      reSearchParens rest

/-- Embedding of `parse_audio_chans` (intelligibility.py lines 43-52):
regex-search for `\(([^)]+)\)`, raise `ValueError` when absent, otherwise
split the captured group on `;`. -/
def parse_audio_chans (csv_str : List Char) : Except PyErr (List (List Char)) :=
  match reSearchParens csv_str with
  | none => .error (.valueError "Unable to parse chans, expected in the form (chan1;chan2;...)")
  | some run => .ok (run.splitOn ';')

/-! Helper lemmas for the codec round trip. -/

theorem takeWhile_append_stop (p : Char → Bool) (l : List Char) (x : Char) (xs : List Char)
    (hl : ∀ a ∈ l, p a = true) (hx : p x = false) :
    (l ++ x :: xs).takeWhile p = l := by
  induction l with
  | nil => simp [List.takeWhile, hx]
  | cons c cs ih =>
    have hc : p c = true := hl c (List.mem_cons_self _ _)
    simp only [List.cons_append, List.takeWhile_cons, hc, if_true]
    rw [ih (fun a ha => hl a (List.mem_cons_of_mem _ ha))]

theorem reSearchParens_format (body : List Char) (hne : body ≠ []) (hnp : ')' ∉ body) :
    reSearchParens ('(' :: (body ++ [')'])) = some body := by
  have hrun : (body ++ [')']).takeWhile (fun x => x ≠ ')') = body := by
    apply takeWhile_append_stop
    · intro a ha
      simp only [ne_eq, decide_eq_true_eq]
      exact fun h => hnp (h ▸ ha)
    · simp
  have hdrop : (body ++ [')']).drop body.length = [')'] := by
    rw [List.drop_left]
  unfold reSearchParens
  simp only [if_pos rfl, hrun, hdrop]
  simp [hne]

theorem intercalate_semi_cons_cons (l l2 : List Char) (ls2 : List (List Char)) :
    List.intercalate [';'] (l :: l2 :: ls2) =
      l ++ ';' :: List.intercalate [';'] (l2 :: ls2) := by
  simp [List.intercalate, List.intersperse_cons_cons]

theorem not_mem_intercalate_semi (c : Char) (hc : c ≠ ';') (L : List (List Char))
    (hlab : ∀ l ∈ L, c ∉ l) : c ∉ List.intercalate [';'] L := by
  induction L with
  | nil => simp [List.intercalate]
  | cons l ls ih =>
    cases ls with
    | nil =>
      simpa [List.intercalate] using hlab l (List.mem_cons_self _ _)
    | cons l2 ls2 =>
      rw [intercalate_semi_cons_cons]
      intro hmem
      rcases List.mem_append.mp hmem with h | h
      · exact hlab l (List.mem_cons_self _ _) h
      · rcases List.mem_cons.mp h with h | h
        · exact hc h
        · exact ih (fun x hx => hlab x (List.mem_cons_of_mem _ hx)) h

theorem intercalate_semi_ne_nil (L : List (List Char)) (hne : L ≠ []) (hnemp : L ≠ [[]]) :
    List.intercalate [';'] L ≠ [] := by
  cases L with
  | nil => exact absurd rfl hne
  | cons l ls =>
    cases ls with
    | nil =>
      cases l with
      | nil => exact absurd rfl hnemp
      | cons c cs => simp [List.intercalate]
    | cons l2 ls2 =>
      rw [intercalate_semi_cons_cons]
      cases l with
      | nil => simp
      | cons c cs => simp

/-- C3 (amended): for every non-empty sequence `L` of labels in which no label
contains `;` or `)`, and which is not the single empty label (whose `;`-join
is empty, so the regex `[^)]+` cannot match), the codec round-trips:
`parse_audio_chans (chans_to_string L) = L`. -/
theorem parse_chans_roundtrip (L : List (List Char)) (hne : L ≠ []) (hnemp : L ≠ [[]])
    (hlab : ∀ l ∈ L, ';' ∉ l ∧ ')' ∉ l) :
    parse_audio_chans (chansToStringT L) = .ok L := by
  have hbody_ne : List.intercalate [';'] L ≠ [] := intercalate_semi_ne_nil L hne hnemp
  have hbody_np : ')' ∉ List.intercalate [';'] L :=
    not_mem_intercalate_semi ')' (by decide) L (fun l hl => (hlab l hl).2)
  unfold parse_audio_chans chansToStringT
  rw [List.cons_append, reSearchParens_format _ hbody_ne hbody_np]
  show Except.ok (List.splitOn ';' (List.intercalate [';'] L)) = Except.ok L
  rw [List.splitOn_intercalate _ ';' (fun l hl => (hlab l hl).1) hne]

/-- C3 witness: the amended round trip evaluated at the concrete label list
`["rx_voice"]`. -/
theorem parse_chans_roundtrip_witness :
    parse_audio_chans (chansToStringT [cl "rx_voice"]) = .ok [cl "rx_voice"] :=
  parse_chans_roundtrip [cl "rx_voice"] (by decide) (by decide) (by decide)

/-- C3 counterexample: the single empty label is a non-empty sequence of label
strings none of which contains `;` or `)`, yet `chans_to_string` renders it as
`"()"`, which `parse_audio_chans` rejects (`[^)]+` needs at least one
character), so the round trip of the claim fails at `L = [""]`. -/
theorem parse_chans_counterexample :
    (∀ l ∈ [([] : List Char)], ';' ∉ l ∧ ')' ∉ l) ∧
      parse_audio_chans (chansToStringT [[]]) ≠ .ok [[]] := by
  constructor
  · decide
  · have h : parse_audio_chans (chansToStringT [[]]) =
        .error (.valueError "Unable to parse chans, expected in the form (chan1;chan2;...)") := rfl
    rw [h]
    intro hbad
    exact Except.noConfusion hbad

/-! ## CsvStore cell coercions
Models of the Python built-ins used by `csv_header_fmt` serialization
(`str.format`, hence `str()` on each field value) and by `load_test_data`
deserialization (`data_fields` = `str`, `str`, `parse_audio_chans`, `int`,
`int`, `float`; intelligibility.py line 156).  Integers are rendered in
decimal; floats in `[0,1]` are modelled as exact decimals (`Dec`), matching
the observable `float(str(x)) == x` round trip of Python floats rendered
without an exponent. -/

/-- Decimal digit to character. -/
def digitChar : Nat → Char
  | 0 => '0' | 1 => '1' | 2 => '2' | 3 => '3' | 4 => '4'
  | 5 => '5' | 6 => '6' | 7 => '7' | 8 => '8' | 9 => '9'
  | _ => '?'

/-- Character classified as a decimal digit. -/
def isDigitChar (c : Char) : Bool := 48 ≤ c.toNat ∧ c.toNat ≤ 57

/-- Character to decimal digit value. -/
def charDigit (c : Char) : Nat := c.toNat - 48

/-- Model of Python `str()` on a non-negative integer. -/
def natRender (n : Nat) : List Char :=
  if n = 0 then ['0'] else ((Nat.digits 10 n).reverse.map digitChar)

/-- Model of Python `int()` restricted to unsigned decimal numerals (the
forms `str()` produces). -/
def natParse (s : List Char) : Option Nat :=
  if s ≠ [] ∧ s.all isDigitChar then
    some (Nat.ofDigits 10 (s.map charDigit).reverse)
  else
    none

/-- Model of Python `str()` on an `int`. -/
def intRender (i : Int) : List Char :=
  if i < 0 then '-' :: natRender i.natAbs else natRender i.toNat

/-- Model of Python `int()` restricted to signed decimal numerals. -/
def intParse (s : List Char) : Option Int :=
  if s.head? = some '-' then (natParse s.tail).map (fun n => -(n : Int))
  else (natParse s).map (fun n => (n : Int))

/-- Exact decimal, modelling a Python float whose `str()` form is
`<units>.<digits>` (every float in `[0,1]` except tiny exponent-rendered
values prints this way). -/
structure Dec : Type where
  units : Nat
  frac : List Nat
  deriving Repr, DecidableEq

/-- Rational value of a `Dec`. -/
def Dec.value (d : Dec) : ℚ :=
  (d.units : ℚ) + ((Nat.ofDigits 10 d.frac.reverse : ℕ) : ℚ) / (10 : ℚ) ^ d.frac.length

/-- Model of Python `str()` on a plainly-rendered float. -/
def decRender (d : Dec) : List Char :=
  natRender d.units ++ '.' :: d.frac.map digitChar

/-- Model of Python `float()` restricted to `<units>.<digits>` numerals. -/
def decParse (s : List Char) : Option Dec :=
  match s.splitOn '.' with
  | [a, b] =>
    match natParse a with
    | none => none
    | some u => if b.all isDigitChar then some ⟨u, b.map charDigit⟩ else none
  | _ => none

theorem digitChar_spec (x : Nat) (hx : x < 10) :
    isDigitChar (digitChar x) = true ∧ charDigit (digitChar x) = x := by
  interval_cases x <;> exact ⟨rfl, rfl⟩

theorem natRender_ne_nil (n : Nat) : natRender n ≠ [] := by
  unfold natRender
  split
  · simp
  · next h =>
    simp only [ne_eq, List.map_eq_nil_iff, List.reverse_eq_nil_iff]
    exact Nat.digits_ne_nil_iff_ne_zero.mpr h

theorem natRender_all_digit (n : Nat) : ∀ c ∈ natRender n, isDigitChar c = true := by
  unfold natRender
  split
  · intro c hc
    simp only [List.mem_singleton] at hc
    subst hc; rfl
  · intro c hc
    simp only [List.mem_map, List.mem_reverse] at hc
    obtain ⟨d, hd, rfl⟩ := hc
    exact (digitChar_spec d (Nat.digits_lt_base (by norm_num) hd)).1

theorem not_mem_natRender (c : Char) (n : Nat) (hc : isDigitChar c = false) :
    c ∉ natRender n := by
  intro h
  rw [natRender_all_digit n c h] at hc
  exact Bool.noConfusion hc

theorem natParse_natRender (n : Nat) : natParse (natRender n) = some n := by
  by_cases h0 : n = 0
  · subst h0; decide
  · unfold natParse
    rw [if_pos ⟨natRender_ne_nil n, List.all_eq_true.mpr (natRender_all_digit n)⟩]
    unfold natRender
    rw [if_neg h0]
    congr 1
    have hid : ∀ l : List Nat, (∀ d ∈ l, d < 10) → l.map (charDigit ∘ digitChar) = l := by
      intro l hl
      induction l with
      | nil => rfl
      | cons a as ih =>
        simp [Function.comp, (digitChar_spec a (hl a (List.mem_cons_self _ _))).2,
          ih (fun d hd => hl d (List.mem_cons_of_mem _ hd))]
    have hmap : ((Nat.digits 10 n).reverse.map digitChar).map charDigit =
        (Nat.digits 10 n).reverse := by
      rw [List.map_map]
      exact hid _ (fun d hd => Nat.digits_lt_base (by norm_num) (List.mem_reverse.mp hd))
    rw [hmap, List.reverse_reverse, Nat.ofDigits_digits]

theorem natRender_head_digit (n : Nat) :
    ∃ c cs, natRender n = c :: cs ∧ isDigitChar c = true := by
  cases h : natRender n with
  | nil => exact absurd h (natRender_ne_nil n)
  | cons c cs =>
    exact ⟨c, cs, rfl, natRender_all_digit n c (h ▸ List.mem_cons_self c cs)⟩

theorem intParse_intRender (i : Int) : intParse (intRender i) = some i := by
  by_cases hneg : i < 0
  · unfold intRender intParse
    rw [if_pos hneg]
    rw [if_pos (show ('-' :: natRender i.natAbs).head? = some '-' from rfl),
      List.tail_cons, natParse_natRender]
    have h1 : -((i.natAbs : Int)) = i := by omega
    exact congrArg some h1
  · unfold intRender intParse
    rw [if_neg hneg]
    obtain ⟨c, cs, hrender, hdig⟩ := natRender_head_digit i.toNat
    rw [hrender]
    have hcne : ¬ (c = '-') := by
      intro h
      subst h
      exact Bool.noConfusion hdig
    have hcond : ¬ ((c :: cs).head? = some '-') := by
      simp only [List.head?_cons, Option.some.injEq]
      exact hcne
    rw [if_neg hcond, ← hrender, natParse_natRender]
    have h2 : ((i.toNat : Int)) = i := by omega
    simp [h2]

theorem not_mem_decRenderFrac (c : Char) (l : List Nat) (hl : ∀ d ∈ l, d < 10)
    (hc : isDigitChar c = false) : c ∉ l.map digitChar := by
  intro h
  obtain ⟨d, hd, rfl⟩ := List.mem_map.mp h
  rw [(digitChar_spec d (hl d hd)).1] at hc
  exact Bool.noConfusion hc

theorem decParse_decRender (d : Dec) (hd : ∀ x ∈ d.frac, x < 10) :
    decParse (decRender d) = some d := by
  have hsplit : (decRender d).splitOn '.' = [natRender d.units, d.frac.map digitChar] := by
    have : decRender d = List.intercalate ['.'] [natRender d.units, d.frac.map digitChar] := by
      simp [decRender, List.intercalate, List.intersperse_cons_cons]
    rw [this]
    apply List.splitOn_intercalate _ '.'
    · intro l hl
      rcases List.mem_cons.mp hl with h | h
      · subst h
        exact not_mem_natRender '.' d.units (by decide)
      · rcases List.mem_cons.mp h with h | h
        · subst h
          exact not_mem_decRenderFrac '.' d.frac hd (by decide)
        · cases h
    · simp
  unfold decParse
  rw [hsplit]
  simp only [natParse_natRender]
  have hall : (d.frac.map digitChar).all isDigitChar = true := by
    rw [List.all_eq_true]
    intro c hc
    obtain ⟨x, hx, rfl⟩ := List.mem_map.mp hc
    exact (digitChar_spec x (hd x hx)).1
  rw [if_pos hall]
  congr 1
  cases d with
  | mk u f =>
    congr 1
    rw [List.map_map]
    have hid : ∀ l : List Nat, (∀ x ∈ l, x < 10) → l.map (charDigit ∘ digitChar) = l := by
      intro l hl
      induction l with
      | nil => rfl
      | cons a as ih =>
        simp [Function.comp, (digitChar_spec a (hl a (List.mem_cons_self _ _))).2,
          ih (fun x hx => hl x (List.mem_cons_of_mem _ hx))]
    exact hid f hd

/-! ## TrialRecord and the CSV row round trip
`csv_header_fmt` (intelligibility.py lines 273-296) fixes the column order
`Timestamp,Filename,channels,Over_runs,Under_runs,Intelligibility` and writes
each row by `str.format`, i.e. `str()` of each field joined by commas;
`load_test_data` (lines 571-598) re-reads the file through
`open(fname,'rt')` (universal newlines) and `csv.DictReader` (the csv
module's default-dialect reader, with its quote handling), then converts
each cell with the `data_fields` conversions, mapping a literal `None` cell
to Python `None`. -/

structure TrialRecord : Type where
  Timestamp : List Char
  Filename : List Char
  channels : List (List Char)
  Over_runs : Int
  Under_runs : Int
  Intelligibility : Dec
  deriving Repr, DecidableEq

/-- Serialize one fully-populated record exactly as the row format
`{Timestamp},{Filename},{channels},{Over_runs},{Under_runs},{Intelligibility}`
does (the `channels` value is the string produced by `chans_to_string` at
capture time). -/
def serializeRecord (r : TrialRecord) : List Char :=
  List.intercalate [','] [r.Timestamp, r.Filename, chansToStringT r.channels,
    intRender r.Over_runs, intRender r.Under_runs, decRender r.Intelligibility]

/-- Per-column conversion of the six cells of a data row: a literal `None`
cell loads as Python `None` (hence not a fully populated record), otherwise
the `data_fields` conversions `str,str,parse_audio_chans,int,int,float`
apply. -/
def parseCells (ts fn ch ov un it : List Char) : Option TrialRecord :=
  if ts = cl "None" ∨ fn = cl "None" ∨ ch = cl "None" ∨ ov = cl "None" ∨
      un = cl "None" ∨ it = cl "None" then
    none
  else
    match parse_audio_chans ch, intParse ov, intParse un, decParse it with
    | .ok chans, some o, some u, some d => some ⟨ts, fn, chans, o, u, d⟩
    | _, _, _, _ => none

/-- The csv quote character `"`. -/
def dquote : Char := '\x22'

/-- Universal-newline translation performed by `open(fname,'rt')` before the
csv module sees the text: `\r\n` and a lone `\r` both become `\n`. -/
def univNewlines : List Char → List Char
  | [] => []
  | c :: cs =>
    if c = '\x0d' then
      if cs.head? = some '\n' then univNewlines cs
      else '\n' :: univNewlines cs
    else c :: univNewlines cs

/-- Parser states of the csv module's reader (CPython `_csv.c`): at the start
of a record, at the start of a field, inside an unquoted field, inside a
quoted field, and just after a quote character inside a quoted field. -/
inductive CsvState : Type
  | startRecord
  | startField
  | inField
  | inQuoted
  | quoteInQuoted
  deriving Repr, DecidableEq

/-- The csv module's reader (default dialect: delimiter `,`, quote char `"`,
doubled-quote escaping, non-strict) over universal-newline text, one
character at a time with the current field, current record and finished
records accumulated: `,` ends a field and a newline ends a record when not
inside quotes; a field starting with the quote char is quoted (delimiters and
newlines inside it are literal, a doubled quote is one quote, and after a
closing quote the field continues unquoted); a quote inside an unquoted
field is literal; a blank line is an empty record; pending input at the end
of the text yields a final record. -/
def csvScan : List Char → CsvState → List Char → List (List Char) →
    List (List (List Char)) → List (List (List Char))
  | [], .startRecord, _, _, rows => rows
  | [], _, field, row, rows => rows ++ [row ++ [field]]
  | c :: cs, .startRecord, _, _, rows =>
    if c = '\n' then csvScan cs .startRecord [] [] (rows ++ [[]])
    else if c = dquote then csvScan cs .inQuoted [] [] rows
    else if c = ',' then csvScan cs .startField [] [[]] rows
    else csvScan cs .inField [c] [] rows
  | c :: cs, .startField, field, row, rows =>
    if c = '\n' then csvScan cs .startRecord [] [] (rows ++ [row ++ [field]])
    else if c = dquote then csvScan cs .inQuoted field row rows
    else if c = ',' then csvScan cs .startField [] (row ++ [field]) rows
    else csvScan cs .inField (field ++ [c]) row rows
  | c :: cs, .inField, field, row, rows =>
    if c = '\n' then csvScan cs .startRecord [] [] (rows ++ [row ++ [field]])
    else if c = ',' then csvScan cs .startField [] (row ++ [field]) rows
    else csvScan cs .inField (field ++ [c]) row rows
  | c :: cs, .inQuoted, field, row, rows =>
    if c = dquote then csvScan cs .quoteInQuoted field row rows
    else csvScan cs .inQuoted (field ++ [c]) row rows
  | c :: cs, .quoteInQuoted, field, row, rows =>
    if c = dquote then csvScan cs .inQuoted (field ++ [dquote]) row rows
    else if c = '\n' then csvScan cs .startRecord [] [] (rows ++ [row ++ [field]])
    else if c = ',' then csvScan cs .startField [] (row ++ [field]) rows
    else csvScan cs .inField (field ++ [c]) row rows

/-- All records of a csv text, scanned from the initial state. -/
def csvReadRows (s : List Char) : List (List (List Char)) :=
  csvScan s .startRecord [] [] []

/-- Re-read the written line of one record the way `load_test_data` does:
`open(fname,'rt')` translates newlines, `csv.DictReader` parses the line
(terminated by the `\n` the writer appends) with the csv reader's state
machine, and the `data_fields` conversions load the six columns; any other
shape — extra or missing cells, the line breaking into several records, a
conversion failure — does not load as a fully-populated record. -/
def parseRecordRow (line : List Char) : Option TrialRecord :=
  match csvReadRows (univNewlines (line ++ ['\n'])) with
  | [[ts, fn, ch, ov, un, it]] => parseCells ts fn ch ov un it
  | _ => none

theorem not_mem_chansToStringT (c : Char) (hc1 : c ≠ '(') (hc2 : c ≠ ')')
    (hc3 : c ≠ ';') (L : List (List Char)) (hlab : ∀ l ∈ L, c ∉ l) :
    c ∉ chansToStringT L := by
  unfold chansToStringT
  intro h
  rcases (by simpa using h : c = '(' ∨ c ∈ List.intercalate [';'] L ∨ c = ')') with
    h' | h' | h'
  · exact hc1 h'
  · exact not_mem_intercalate_semi c hc3 L hlab h'
  · exact hc2 h'

theorem not_mem_intRender (c : Char) (i : Int) (hc : isDigitChar c = false)
    (hc2 : c ≠ '-') : c ∉ intRender i := by
  unfold intRender
  split
  · intro h
    rcases List.mem_cons.mp h with h' | h'
    · exact hc2 h'
    · exact not_mem_natRender c _ hc h'
  · exact not_mem_natRender c _ hc

theorem not_mem_decRender (c : Char) (d : Dec) (hd : ∀ x ∈ d.frac, x < 10)
    (hc : isDigitChar c = false) (hc2 : c ≠ '.') : c ∉ decRender d := by
  unfold decRender
  intro h
  rcases List.mem_append.mp h with h' | h'
  · exact not_mem_natRender c _ hc h'
  · rcases List.mem_cons.mp h' with h'' | h''
    · exact hc2 h''
    · exact not_mem_decRenderFrac c d.frac hd hc h''

theorem ne_clNone_of_not_memN (l : List Char) (h : 'N' ∉ l) : l ≠ cl "None" := by
  intro he
  subst he
  exact h (by decide)

theorem head?_ne_of_not_mem (l : List Char) (c : Char) (h : c ∉ l) :
    l.head? ≠ some c := by
  intro he
  cases l with
  | nil => cases he
  | cons a as =>
    simp only [List.head?_cons, Option.some.injEq] at he
    exact h (List.mem_cons.mpr (Or.inl he.symm))

theorem intercalate_char_cons_cons (s : Char) (l l2 : List Char)
    (ls2 : List (List Char)) :
    List.intercalate [s] (l :: l2 :: ls2) =
      l ++ s :: List.intercalate [s] (l2 :: ls2) := by
  simp [List.intercalate, List.intersperse_cons_cons]

theorem not_mem_intercalate_char (s c : Char) (hc : c ≠ s) (L : List (List Char))
    (hlab : ∀ l ∈ L, c ∉ l) : c ∉ List.intercalate [s] L := by
  induction L with
  | nil => simp [List.intercalate]
  | cons l ls ih =>
    cases ls with
    | nil =>
      simpa [List.intercalate] using hlab l (List.mem_cons_self _ _)
    | cons l2 ls2 =>
      rw [intercalate_char_cons_cons]
      intro hmem
      rcases List.mem_append.mp hmem with h | h
      · exact hlab l (List.mem_cons_self _ _) h
      · rcases List.mem_cons.mp h with h | h
        · exact hc h
        · exact ih (fun x hx => hlab x (List.mem_cons_of_mem _ hx)) h

theorem univNewlines_id (s : List Char) (h : '\x0d' ∉ s) : univNewlines s = s := by
  induction s with
  | nil => rfl
  | cons c cs ih =>
    have hc : c ≠ '\x0d' := fun he => h (List.mem_cons.mpr (Or.inl he.symm))
    simp only [univNewlines]
    rw [if_neg hc, ih (fun hx => h (List.mem_cons_of_mem _ hx))]

theorem csvScan_inField_chunk (cs rest field : List Char) (row : List (List Char))
    (rows : List (List (List Char))) (h : ∀ c ∈ cs, c ≠ ',' ∧ c ≠ '\n') :
    csvScan (cs ++ rest) .inField field row rows =
      csvScan rest .inField (field ++ cs) row rows := by
  induction cs generalizing field with
  | nil => simp
  | cons c cs ih =>
    have hc := h c (List.mem_cons_self _ _)
    simp only [List.cons_append, csvScan]
    rw [if_neg hc.2, if_neg hc.1]
    simpa using ih (field ++ [c]) (fun x hx => h x (List.mem_cons_of_mem _ hx))

theorem csvScan_cell_comma (cell rest : List Char) (row : List (List Char))
    (rows : List (List (List Char))) (h : ∀ c ∈ cell, c ≠ ',' ∧ c ≠ '\n')
    (hq : cell.head? ≠ some dquote) :
    csvScan (cell ++ ',' :: rest) .startField [] row rows =
      csvScan rest .startField [] (row ++ [cell]) rows := by
  cases cell with
  | nil =>
    simp [csvScan, dquote]
  | cons c cs =>
    have hc := h c (List.mem_cons_self _ _)
    have hcq : c ≠ dquote := fun he => hq (by rw [List.head?_cons, he])
    simp only [List.cons_append, csvScan]
    rw [if_neg hc.2, if_neg hcq, if_neg hc.1]
    have hchunk := csvScan_inField_chunk cs (',' :: rest) [c] row rows
      (fun x hx => h x (List.mem_cons_of_mem _ hx))
    simp only [List.nil_append, List.append_eq]
    rw [hchunk]
    simp [csvScan]

theorem csvScan_cell_newline (cell rest : List Char) (row : List (List Char))
    (rows : List (List (List Char))) (h : ∀ c ∈ cell, c ≠ ',' ∧ c ≠ '\n')
    (hq : cell.head? ≠ some dquote) :
    csvScan (cell ++ '\n' :: rest) .startField [] row rows =
      csvScan rest .startRecord [] [] (rows ++ [row ++ [cell]]) := by
  cases cell with
  | nil =>
    simp [csvScan]
  | cons c cs =>
    have hc := h c (List.mem_cons_self _ _)
    have hcq : c ≠ dquote := fun he => hq (by rw [List.head?_cons, he])
    simp only [List.cons_append, csvScan]
    rw [if_neg hc.2, if_neg hcq, if_neg hc.1]
    have hchunk := csvScan_inField_chunk cs ('\n' :: rest) [c] row rows
      (fun x hx => h x (List.mem_cons_of_mem _ hx))
    simp only [List.nil_append, List.append_eq]
    rw [hchunk]
    simp [csvScan]

theorem csvScan_record (cells : List (List Char)) (rest : List Char)
    (row : List (List Char)) (rows : List (List (List Char)))
    (hcells : ∀ cell ∈ cells,
      (∀ c ∈ cell, c ≠ ',' ∧ c ≠ '\n') ∧ cell.head? ≠ some dquote)
    (hne : cells ≠ []) :
    csvScan (List.intercalate [','] cells ++ '\n' :: rest) .startField [] row rows =
      csvScan rest .startRecord [] [] (rows ++ [row ++ cells]) := by
  induction cells generalizing row with
  | nil => exact absurd rfl hne
  | cons cell more ih =>
    cases more with
    | nil =>
      rw [show List.intercalate [','] [cell] = cell from by simp [List.intercalate]]
      exact csvScan_cell_newline cell rest row rows
        (hcells cell (List.mem_cons_self _ _)).1 (hcells cell (List.mem_cons_self _ _)).2
    | cons cell2 more2 =>
      rw [intercalate_char_cons_cons, List.append_assoc, List.cons_append,
        csvScan_cell_comma cell _ row rows
          (hcells cell (List.mem_cons_self _ _)).1 (hcells cell (List.mem_cons_self _ _)).2]
      rw [ih (row ++ [cell]) (fun x hx => hcells x (List.mem_cons_of_mem _ hx)) (by simp)]
      simp

theorem csvScan_record0 (a b : List Char) (t : List (List Char)) (rest : List Char)
    (rows : List (List (List Char)))
    (hcells : ∀ cell ∈ a :: b :: t,
      (∀ c ∈ cell, c ≠ ',' ∧ c ≠ '\n') ∧ cell.head? ≠ some dquote) :
    csvScan (List.intercalate [','] (a :: b :: t) ++ '\n' :: rest)
        .startRecord [] [] rows =
      csvScan rest .startRecord [] [] (rows ++ [a :: b :: t]) := by
  rw [intercalate_char_cons_cons, List.append_assoc, List.cons_append]
  have hrec := fun row => csvScan_record (b :: t) rest row rows
    (fun x hx => hcells x (List.mem_cons_of_mem _ hx)) (by simp)
  cases a with
  | nil =>
    have h0 : csvScan (',' :: (List.intercalate [','] (b :: t) ++ '\n' :: rest))
        .startRecord [] [] rows =
        csvScan (List.intercalate [','] (b :: t) ++ '\n' :: rest)
          .startField [] [[]] rows := by
      simp [csvScan, dquote]
    rw [List.nil_append, h0, hrec [[]]]
    simp
  | cons c cs =>
    have hc := (hcells (c :: cs) (List.mem_cons_self _ _)).1 c (List.mem_cons_self _ _)
    have hcq : c ≠ dquote := fun he =>
      (hcells (c :: cs) (List.mem_cons_self _ _)).2 (by rw [List.head?_cons, he])
    simp only [List.cons_append, csvScan]
    rw [if_neg hc.2, if_neg hcq, if_neg hc.1]
    have hchunk := csvScan_inField_chunk cs
      (',' :: (List.intercalate [','] (b :: t) ++ '\n' :: rest)) [c] [] rows
      (fun x hx => (hcells (c :: cs) (List.mem_cons_self _ _)).1 x
        (List.mem_cons_of_mem _ hx))
    simp only [List.append_eq]
    rw [hchunk]
    have h1 : csvScan (',' :: (List.intercalate [','] (b :: t) ++ '\n' :: rest))
        .inField ([c] ++ cs) [] rows =
        csvScan (List.intercalate [','] (b :: t) ++ '\n' :: rest)
          .startField [] [c :: cs] rows := by
      simp [csvScan]
    rw [h1, hrec [c :: cs]]
    simp

/-- C4 (amended): serializing a fully-populated record in the declared column
order and re-reading the written line through universal newlines, the csv
reader and the declared per-column conversions returns the record, provided
the free-text fields contain no comma, carriage return or newline, do not
begin with the csv quote character, and are not the literal `None`; the
channel labels obey the channel-string grammar (no `;`, `)`, `,`, CR or LF,
and the `;`-join non-empty); the buffer counters are non-negative integers;
and the score is a plainly-rendered decimal in `[0,1]`. -/
theorem csv_record_roundtrip (r : TrialRecord)
    (hts : ',' ∉ r.Timestamp ∧ '\n' ∉ r.Timestamp ∧ '\x0d' ∉ r.Timestamp ∧
      r.Timestamp.head? ≠ some dquote ∧ r.Timestamp ≠ cl "None")
    (hfn : ',' ∉ r.Filename ∧ '\n' ∉ r.Filename ∧ '\x0d' ∉ r.Filename ∧
      r.Filename.head? ≠ some dquote ∧ r.Filename ≠ cl "None")
    (hch : r.channels ≠ [] ∧ r.channels ≠ [[]] ∧
      ∀ l ∈ r.channels, ';' ∉ l ∧ ')' ∉ l ∧ ',' ∉ l ∧ '\n' ∉ l ∧ '\x0d' ∉ l)
    (hov : 0 ≤ r.Over_runs) (hun : 0 ≤ r.Under_runs)
    (hint : (∀ x ∈ r.Intelligibility.frac, x < 10) ∧
      0 ≤ r.Intelligibility.value ∧ r.Intelligibility.value ≤ 1) :
    parseRecordRow (serializeRecord r) = some r := by
  have hcells : ∀ cell ∈ [r.Timestamp, r.Filename, chansToStringT r.channels,
      intRender r.Over_runs, intRender r.Under_runs, decRender r.Intelligibility],
      (∀ c ∈ cell, c ≠ ',' ∧ c ≠ '\n') ∧ cell.head? ≠ some dquote := by
    intro cell hcell
    simp only [List.mem_cons, List.mem_singleton] at hcell
    rcases hcell with rfl | rfl | rfl | rfl | rfl | rfl | h
    · exact ⟨fun c hc => ⟨fun he => hts.1 (he ▸ hc), fun he => hts.2.1 (he ▸ hc)⟩,
        hts.2.2.2.1⟩
    · exact ⟨fun c hc => ⟨fun he => hfn.1 (he ▸ hc), fun he => hfn.2.1 (he ▸ hc)⟩,
        hfn.2.2.2.1⟩
    · refine ⟨fun c hc => ⟨fun he => ?_, fun he => ?_⟩, ?_⟩
      · exact not_mem_chansToStringT ',' (by decide) (by decide) (by decide)
          r.channels (fun l hl => (hch.2.2 l hl).2.2.1) (he ▸ hc)
      · exact not_mem_chansToStringT '\n' (by decide) (by decide) (by decide)
          r.channels (fun l hl => (hch.2.2 l hl).2.2.2.1) (he ▸ hc)
      · unfold chansToStringT
        rw [List.cons_append, List.head?_cons]
        decide
    · exact ⟨fun c hc => ⟨fun he => not_mem_intRender ',' _ (by decide) (by decide) (he ▸ hc),
        fun he => not_mem_intRender '\n' _ (by decide) (by decide) (he ▸ hc)⟩,
        head?_ne_of_not_mem _ dquote (not_mem_intRender dquote _ (by decide) (by decide))⟩
    · exact ⟨fun c hc => ⟨fun he => not_mem_intRender ',' _ (by decide) (by decide) (he ▸ hc),
        fun he => not_mem_intRender '\n' _ (by decide) (by decide) (he ▸ hc)⟩,
        head?_ne_of_not_mem _ dquote (not_mem_intRender dquote _ (by decide) (by decide))⟩
    · exact ⟨fun c hc => ⟨fun he => not_mem_decRender ',' _ hint.1 (by decide) (by decide) (he ▸ hc),
        fun he => not_mem_decRender '\n' _ hint.1 (by decide) (by decide) (he ▸ hc)⟩,
        head?_ne_of_not_mem _ dquote (not_mem_decRender dquote _ hint.1 (by decide) (by decide))⟩
    · cases h
  have hnocr : '\x0d' ∉ serializeRecord r ++ ['\n'] := by
    intro hmem
    rcases List.mem_append.mp hmem with hm | hm
    · refine not_mem_intercalate_char ',' '\x0d' (by decide) _ ?_ hm
      intro l hl
      simp only [List.mem_cons, List.mem_singleton] at hl
      rcases hl with rfl | rfl | rfl | rfl | rfl | rfl | h
      · exact hts.2.2.1
      · exact hfn.2.2.1
      · exact not_mem_chansToStringT '\x0d' (by decide) (by decide) (by decide)
          r.channels (fun l hl => (hch.2.2 l hl).2.2.2.2)
      · exact not_mem_intRender '\x0d' _ (by decide) (by decide)
      · exact not_mem_intRender '\x0d' _ (by decide) (by decide)
      · exact not_mem_decRender '\x0d' _ hint.1 (by decide) (by decide)
      · cases h
    · simp only [List.mem_singleton] at hm
      exact absurd hm (by decide)
  unfold parseRecordRow
  rw [univNewlines_id _ hnocr]
  unfold csvReadRows
  have hscan : csvScan (serializeRecord r ++ ['\n']) .startRecord [] [] [] =
      [[r.Timestamp, r.Filename, chansToStringT r.channels,
        intRender r.Over_runs, intRender r.Under_runs, decRender r.Intelligibility]] := by
    rw [show serializeRecord r ++ ['\n'] =
        List.intercalate [','] [r.Timestamp, r.Filename, chansToStringT r.channels,
          intRender r.Over_runs, intRender r.Under_runs, decRender r.Intelligibility]
          ++ '\n' :: [] from rfl]
    rw [csvScan_record0 r.Timestamp r.Filename
      [chansToStringT r.channels, intRender r.Over_runs, intRender r.Under_runs,
        decRender r.Intelligibility] [] [] hcells]
    rfl
  rw [hscan]
  show parseCells r.Timestamp r.Filename (chansToStringT r.channels)
    (intRender r.Over_runs) (intRender r.Under_runs) (decRender r.Intelligibility) = some r
  have hchne : chansToStringT r.channels ≠ cl "None" := by
    unfold chansToStringT
    rw [List.cons_append]
    have hcl : cl "None" = 'N' :: cl "one" := rfl
    rw [hcl]
    intro h
    exact absurd (List.cons.inj h).1 (by decide)
  have hovne : intRender r.Over_runs ≠ cl "None" :=
    ne_clNone_of_not_memN _ (not_mem_intRender 'N' _ (by decide) (by decide))
  have hunne : intRender r.Under_runs ≠ cl "None" :=
    ne_clNone_of_not_memN _ (not_mem_intRender 'N' _ (by decide) (by decide))
  have hitne : decRender r.Intelligibility ≠ cl "None" :=
    ne_clNone_of_not_memN _ (not_mem_decRender 'N' _ hint.1 (by decide) (by decide))
  unfold parseCells
  rw [if_neg (by
    push_neg
    exact ⟨hts.2.2.2.2, hfn.2.2.2.2, hchne, hovne, hunne, hitne⟩)]
  rw [parse_chans_roundtrip r.channels hch.1 hch.2.1
    (fun l hl => ⟨(hch.2.2 l hl).1, (hch.2.2 l hl).2.1⟩),
    intParse_intRender, intParse_intRender, decParse_decRender _ hint.1]

/-- C4 witness: the amended round trip at a concrete fully-populated record
(timestamp, clip name, `("rx_voice")` channel tuple, zero counters, score
`0.85`). -/
theorem csv_record_roundtrip_witness :
    parseRecordRow (serializeRecord
      ⟨cl "08-Mar-2022 10:21:18", cl "F1_b9_w1_orig", [cl "rx_voice"], 0, 0, ⟨0, [8, 5]⟩⟩) =
      some ⟨cl "08-Mar-2022 10:21:18", cl "F1_b9_w1_orig", [cl "rx_voice"], 0, 0, ⟨0, [8, 5]⟩⟩ :=
  csv_record_roundtrip _ (by decide) (by decide) (by decide) (by decide) (by decide)
    ⟨by decide, by norm_num [Dec.value, Nat.ofDigits], by norm_num [Dec.value, Nat.ofDigits]⟩

/-- C4 counterexample: a record whose `Timestamp` is the plain string `"a,b"`
(a value in the declared domain of the claim) serializes to a row with seven
cells, so re-reading does not return the record — the claim needs the
restrictions of the amended statement. -/
theorem csv_record_roundtrip_counterexample :
    parseRecordRow (serializeRecord
      ⟨cl "a,b", cl "F1", [cl "rx_voice"], 0, 0, ⟨0, [5]⟩⟩) ≠
      some ⟨cl "a,b", cl "F1", [cl "rx_voice"], 0, 0, ⟨0, [5]⟩⟩ := by
  decide

/-! ## Scorer contract and AudioChannelExtractor
`process_audio` (intelligibility.py lines 486-540) loads a recorded clip,
checks the sample rate against `abcmrt.fs`, extracts the voice channel, and
in per-trial mode scores it with `abcmrt.process`. -/

/-- Fixed sample rate required by the abcmrt scorer (48 kHz). -/
def abcmrt_fs : Nat := 48000

/-- External abcmrt scorer, consumed as an opaque deterministic collaborator:
`abcmrt.process` called on a single clip, `abcmrt.process` called on a batch
of clips, and `abcmrt.guess_correction`.  Each `process` call returns the
bias-corrected estimate `phi_hat` and the list of per-clip probabilities. -/
structure Scorer : Type where
  processOne : List Int → Nat → ℚ × List ℚ
  processBatch : List (List Int) → List Nat → ℚ × List ℚ
  guess_correction : ℚ → ℚ

/-- Recorded audio buffer: `ndim == 1` (mono vector) or a 2-D buffer given by
its list of columns (one per recorded channel). -/
inductive RecData : Type where
  | mono (v : List Int) : RecData
  | multi (cols : List (List Int)) : RecData
  deriving Repr, DecidableEq

/-- Observable external calls made by the measurement code. -/
inductive Event : Type where
  | progress (tag : String) (total : Nat) (idx : Nat) : Event
  | scoreOne (voice : List Int) (wnum : Nat) : Event
  | scoreBatch (speech : List (List Int)) (wnums : List Nat) : Event
  deriving Repr, DecidableEq

/-- Event classifier: per-clip scorer call. -/
def Event.isScoreOne : Event → Bool
  | .scoreOne _ _ => true
  | _ => false

/-- Event classifier: batch scorer call. -/
def Event.isScoreBatch : Event → Bool
  | .scoreBatch _ _ => true
  | _ => false

/-- Event classifier: progress-callback invocation. -/
def Event.isProgress : Event → Bool
  | .progress _ _ _ => true
  | _ => false

/-- Python `str.index(sub)`: least start position of a substring. -/
def strFind (target : List Char) : List Char → Option Nat
  | [] => if target = [] then some 0 else none
  | c :: rest =>
    if target.isPrefixOf (c :: rest) then some 0
    else (strFind target rest).map (· + 1)

/-- Model of `rec_chans.index('rx_voice')` (intelligibility.py line 512):
`tuple.index` raises `ValueError` when the label is absent; on a bare string
(the `('rx_voice')` fallback) `str.index` substring search runs instead. -/
def chanIndex (chans : ChanArg) : Except PyErr Nat :=
  match chans with
  | .tup l =>
    match l.indexOf? (cl "rx_voice") with
    | some i => .ok i
    | none => .error (.valueError "tuple.index(x): x not in tuple")
  | .str s =>
    match strFind (cl "rx_voice") s with
    | some i => .ok i
    | none => .error (.valueError "substring not found")

/-- Result dictionary of `process_audio`: estimated values plus the transient
voice waveform and clip word number. -/
structure PAOut : Type where
  Intelligibility : Option ℚ
  channels : List Char
  voice : List Int
  wnum : Nat
  deriving Repr, DecidableEq

/-- Embedding of `measure.process_audio` (intelligibility.py lines 486-540):
check `abcmrt.fs`, extract the voice channel (`rx_voice` column of a
multi-channel buffer, a mono buffer unchanged), score per-trial when
`self.intell_est == 'trial'`, and render the channel string.  Returns the
scorer-call events emitted before any raise, alongside the result or the
exception.  `extractVoice` models lines 509-516: the `rx_voice` column of a
multi-channel buffer, or a mono buffer unchanged. -/
def extractVoice (rec : RecData) (rec_chans : ChanArg) : Except PyErr (List Int) :=
  match rec with
  | .multi cols =>
    match chanIndex rec_chans with
    | .error e => .error e
    | .ok i =>
      match cols.get? i with
      | some v => .ok v
      | none => .error (.indexError "index out of bounds")
  | .mono v => .ok v

def process_audio (intellEst : String) (scorer : Scorer) (fs : Nat) (rec : RecData)
    (rec_chans : ChanArg) (word_num : Nat) : List Event × Except PyErr PAOut :=
  if fs ≠ abcmrt_fs then
    ([], .error (.runtimeError "Recorded sample rate does not match!"))
  else
    match extractVoice rec rec_chans with
    | .error e => ([], .error e)
    | .ok voice =>
      let scored : List Event × Except PyErr (Option ℚ) :=
        if intellEst = "trial" then
          ([Event.scoreOne voice word_num],
            match (scorer.processOne voice word_num).2.head? with
            | some s => Except.ok (some s)
            | none => Except.error (PyErr.indexError "list index out of range"))
        else ([], Except.ok none)
      match scored.2 with
      | .error e => (scored.1, .error e)
      | .ok s =>
        match chans_to_string rec_chans with
        | .error e => (scored.1, .error e)
        | .ok chStr => (scored.1, .ok ⟨s, chStr, voice, word_num⟩)

/-- Deterministic scorer test double used by concrete witnesses: every clip
scores `4/5` and the correction is the identity. -/
def constScorer : Scorer :=
  ⟨fun _ _ => (4/5, [4/5]), fun sp _ => (4/5, sp.map (fun _ => 4/5)), fun x => x⟩

/-- Classify an `Except` result as a raised `RuntimeError`. -/
def exceptIsRuntime {α : Type} : Except PyErr α → Bool
  | .error e => e.isRuntime
  | .ok _ => false

/-- C7 (amended): `process_audio` raises `RuntimeError` when the recorded
sample rate differs from `abcmrt.fs`; on a matching rate with a multi-channel
buffer whose channel tuple lacks `rx_voice`, `tuple.index` raises
`ValueError` (not `RuntimeError` as claimed); a single-channel buffer is
returned as the voice channel unchanged for any channel tuple (no label
lookup). -/
theorem process_audio_contract (intellEst : String) (scorer : Scorer) (w : Nat) :
    (∀ fs rec chans, fs ≠ abcmrt_fs →
      (process_audio intellEst scorer fs rec chans w).2 =
        .error (.runtimeError "Recorded sample rate does not match!")) ∧
    (∀ cols chans, cl "rx_voice" ∉ chans →
      (process_audio intellEst scorer abcmrt_fs (.multi cols) (.tup chans) w).2 =
        .error (.valueError "tuple.index(x): x not in tuple")) ∧
    (∀ v chans, (intellEst = "trial" → (scorer.processOne v w).2 ≠ []) →
      ∃ s, (process_audio intellEst scorer abcmrt_fs (.mono v) (.tup chans) w).2 =
        .ok ⟨s, chansToStringT chans, v, w⟩) := by
  refine ⟨?_, ?_, ?_⟩
  · intro fs rec chans hfs
    unfold process_audio
    rw [if_pos hfs]
  · intro cols chans hmem
    have hidx : chans.indexOf? (cl "rx_voice") = none := by
      rw [List.indexOf?_eq_none_iff]
      intro x hx
      simp only [beq_iff_eq]
      exact fun h => hmem (h ▸ hx)
    unfold process_audio
    rw [if_neg (by simp)]
    have hev : extractVoice (.multi cols) (.tup chans) =
        .error (.valueError "tuple.index(x): x not in tuple") := by
      unfold extractVoice chanIndex
      simp [hidx]
    rw [hev]
  · intro v chans hne
    unfold process_audio
    rw [if_neg (by simp)]
    by_cases htrial : intellEst = "trial"
    · obtain ⟨s, rest, hs⟩ : ∃ s rest, (scorer.processOne v w).2 = s :: rest := by
        cases h : (scorer.processOne v w).2 with
        | nil => exact absurd h (hne htrial)
        | cons a as => exact ⟨a, as, rfl⟩
      refine ⟨some s, ?_⟩
      simp [extractVoice, htrial, hs, chans_to_string]
    · refine ⟨none, ?_⟩
      simp [extractVoice, if_neg htrial, chans_to_string]

/-- C7 witness: the amended contract evaluated at concrete inputs — a 44.1 kHz
mono clip (rate mismatch), a 48 kHz two-column buffer with channel tuple
`("left","right")` (missing label), and a 48 kHz mono clip with tuple
`("rx_voice")`. -/
theorem process_audio_contract_witness :
    (process_audio "aggregate" constScorer 44100 (.mono [0]) (.tup [cl "rx_voice"]) 3).2 =
      .error (.runtimeError "Recorded sample rate does not match!") ∧
    (process_audio "aggregate" constScorer abcmrt_fs (.multi [[1], [2]])
      (.tup [cl "left", cl "right"]) 3).2 =
      .error (.valueError "tuple.index(x): x not in tuple") ∧
    ∃ s, (process_audio "aggregate" constScorer abcmrt_fs (.mono [0, 1])
      (.tup [cl "rx_voice"]) 3).2 = .ok ⟨s, chansToStringT [cl "rx_voice"], [0, 1], 3⟩ := by
  obtain ⟨h1, h2, h3⟩ := process_audio_contract "aggregate" constScorer 3
  exact ⟨h1 44100 (.mono [0]) (.tup [cl "rx_voice"]) (by decide),
    h2 [[1], [2]] [cl "left", cl "right"] (by decide),
    h3 [0, 1] [cl "rx_voice"] (by intro h; exact absurd h (by decide))⟩

/-- C7 counterexample: with a 48 kHz multi-channel buffer and channel tuple
`("left","right")` (no `rx_voice`), `process_audio` raises `ValueError` from
`tuple.index`, not the `RuntimeError` the claim states. -/
theorem process_audio_counterexample :
    (process_audio "aggregate" constScorer abcmrt_fs (.multi [[1], [2]])
      (.tup [cl "left", cl "right"]) 0).2 =
      .error (.valueError "tuple.index(x): x not in tuple") ∧
    exceptIsRuntime (process_audio "aggregate" constScorer abcmrt_fs (.multi [[1], [2]])
      (.tup [cl "left", cl "right"]) 0).2 = false :=
  ⟨rfl, rfl⟩

/-! ## CsvStore rows and PostProcessor
`load_test_data` (intelligibility.py lines 542-604) re-reads a captured CSV,
and `post_process` (lines 637-714) reconciles the loaded rows with
(re)computed scores according to `self.intell_est`. -/

/-- A data row of a written CSV, as typed values; `channels` holds the
rendered channel string, `Intelligibility` is `none` for NaN. -/
structure CsvRow : Type where
  Timestamp : List Char
  Filename : List Char
  channels : List Char
  Over_runs : Int
  Under_runs : Int
  Intelligibility : Option ℚ
  deriving Repr, DecidableEq

/-- A row as produced by `load_test_data`: the channels cell parsed to a
label tuple.  `channels = none` models a foreign CSV without a `channels`
column. -/
structure LoadedRow : Type where
  Timestamp : List Char
  Filename : List Char
  channels : Option (List (List Char))
  Over_runs : Int
  Under_runs : Int
  Intelligibility : Option ℚ
  deriving Repr, DecidableEq

/-- Placeholder row used with `List.getD`. -/
def dummyLoadedRow : LoadedRow := ⟨[], [], none, 0, 0, none⟩

/-- `load_test_data` on one row written by the capture loop: on the typed
values the only non-identity `data_fields` conversion is `parse_audio_chans`
on the channels cell (the cell round trips of `csv_record_roundtrip` justify
identity on the remaining columns). -/
def loadRow (r : CsvRow) : Except PyErr LoadedRow :=
  match parse_audio_chans r.channels with
  | .error e => .error e
  | .ok t => .ok ⟨r.Timestamp, r.Filename, some t, r.Over_runs, r.Under_runs, r.Intelligibility⟩

/-- `load_test_data` over all rows, stopping at the first raise. -/
def loadRows : List CsvRow → Except PyErr (List LoadedRow)
  | [] => .ok []
  | r :: rs =>
    match loadRow r with
    | .error e => .error e
    | .ok l =>
      match loadRows rs with
      | .error e => .error e
      | .ok ls => .ok (l :: ls)

/-- Received-clip file name `Rx{n+1}_{Filename}.wav` (post_process line 671;
trial numbers are 1-based). -/
def rxClipName (n : Nat) (fname : List Char) : List Char :=
  cl "Rx" ++ natRender (n + 1) ++ cl "_" ++ fname ++ cl ".wav"

/-- `os.path.join` of a directory and a file name. -/
def pathJoin (a b : List Char) : List Char := a ++ '/' :: b

/-- Per-trial contributions of one `post_process` loop iteration. -/
structure PPStep : Type where
  row : CsvRow
  speechAdd : List (List Int)
  clipAdd : List Nat
  succAdd : List (Option ℚ)
  deriving Repr, DecidableEq

/-- One iteration of the `post_process` loop (lines 666-707): progress
callback (`'proc'`, return value unread), clip-name reconstruction, the
channels fallback `rec_chans=('rx_voice')` — a bare `str`, the missing-comma
slip — audio processing unless mode is `none`, and the mode-dependent merge.
Returns the events emitted before any raise together with the step result or
the exception. -/
def ppTrialStep (intellEst : String) (scorer : Scorer) (wnumOf : List Char → Nat)
    (audioGet : List Char → Except PyErr (Nat × RecData)) (audio_path : List Char)
    (trialsAttr n : Nat) (trial : LoadedRow) : List Event × Except PyErr PPStep :=
  if intellEst = "none" then
    match trial.channels with
    | none => ([Event.progress "proc" trialsAttr n], .error (.keyError "channels"))
    | some t =>
      ([Event.progress "proc" trialsAttr n],
        .ok ⟨⟨trial.Timestamp, trial.Filename, chansToStringT t,
          trial.Over_runs, trial.Under_runs, trial.Intelligibility⟩,
          [], [], [trial.Intelligibility]⟩)
  else
    match audioGet (pathJoin audio_path (rxClipName n trial.Filename)) with
    | .error e => ([Event.progress "proc" trialsAttr n], .error e)
    | .ok (fs, rec) =>
      match process_audio intellEst scorer fs rec
          (match trial.channels with
            | some t => ChanArg.tup t
            | none => ChanArg.str (cl "rx_voice"))
          (wnumOf (pathJoin audio_path (rxClipName n trial.Filename))) with
      | (paEvents, .error e) =>
        (Event.progress "proc" trialsAttr n :: paEvents, .error e)
      | (paEvents, .ok new_dat) =>
        if intellEst = "trial" then
          (Event.progress "proc" trialsAttr n :: paEvents,
            .ok ⟨⟨trial.Timestamp, trial.Filename, new_dat.channels,
              trial.Over_runs, trial.Under_runs, new_dat.Intelligibility⟩,
              [], [], [new_dat.Intelligibility]⟩)
        else
          match trial.channels with
          | none => (Event.progress "proc" trialsAttr n :: paEvents, .error (.keyError "channels"))
          | some t =>
            (Event.progress "proc" trialsAttr n :: paEvents,
              .ok ⟨⟨trial.Timestamp, trial.Filename, chansToStringT t,
                trial.Over_runs, trial.Under_runs, trial.Intelligibility⟩,
                [new_dat.voice], [new_dat.wnum], []⟩)

/-- Accumulated state of the `post_process` loop. -/
structure PPLoopOut : Type where
  events : List Event
  rows : List CsvRow
  speech : List (List Int)
  clip_num : List Nat
  success : List (Option ℚ)
  err : Option PyErr
  deriving Repr, DecidableEq

/-- The `post_process` loop over the remaining rows, starting at trial index
`n`: rows written before a raise are kept (the output file already holds
them). -/
def ppLoop (intellEst : String) (scorer : Scorer) (wnumOf : List Char → Nat)
    (audioGet : List Char → Except PyErr (Nat × RecData)) (audio_path : List Char)
    (trialsAttr : Nat) : Nat → List LoadedRow → PPLoopOut
  | _, [] => ⟨[], [], [], [], [], none⟩
  | n, trial :: rest =>
    match ppTrialStep intellEst scorer wnumOf audioGet audio_path trialsAttr n trial with
    | (evs, .error e) => ⟨evs, [], [], [], [], some e⟩
    | (evs, .ok st) =>
      ⟨evs ++ (ppLoop intellEst scorer wnumOf audioGet audio_path trialsAttr (n + 1) rest).events,
        st.row :: (ppLoop intellEst scorer wnumOf audioGet audio_path trialsAttr (n + 1) rest).rows,
        st.speechAdd ++ (ppLoop intellEst scorer wnumOf audioGet audio_path trialsAttr (n + 1) rest).speech,
        st.clipAdd ++ (ppLoop intellEst scorer wnumOf audioGet audio_path trialsAttr (n + 1) rest).clip_num,
        st.succAdd ++ (ppLoop intellEst scorer wnumOf audioGet audio_path trialsAttr (n + 1) rest).success,
        (ppLoop intellEst scorer wnumOf audioGet audio_path trialsAttr (n + 1) rest).err⟩

instance {ε α : Type} [DecidableEq ε] [DecidableEq α] : DecidableEq (Except ε α) := fun x y =>
  match x, y with
  | .error a, .error b =>
    if h : a = b then isTrue (by rw [h]) else isFalse (fun hh => h (Except.error.inj hh))
  | .ok a, .ok b =>
    if h : a = b then isTrue (by rw [h]) else isFalse (fun hh => h (Except.ok.inj hh))
  | .error _, .ok _ => isFalse (fun hh => Except.noConfusion hh)
  | .ok _, .error _ => isFalse (fun hh => Except.noConfusion hh)

/-- Result of `post_process`: written rows, emitted events, and the returned
estimate (or the exception raised). -/
structure PPResult : Type where
  events : List Event
  rows : List CsvRow
  ret : Except PyErr (Option ℚ)
  deriving Repr, DecidableEq

/-- Arithmetic mean over `ℚ`. -/
def meanQ (xs : List ℚ) : ℚ := xs.sum / xs.length

/-- `np.mean` over a list of scores that may contain NaN (`none`): NaN (and
the empty mean) propagates as `none`. -/
def meanOpt (l : List (Option ℚ)) : Option ℚ :=
  if l.isEmpty ∨ l.any (fun o => o.isNone) then none
  else some (meanQ (l.map (fun o => o.getD 0)))

/-- Embedding of `measure.post_process` (intelligibility.py lines 637-714):
run the loop over all rows; afterwards return
`abcmrt.guess_correction(np.mean(success))` for non-aggregate modes, or make
the single batched `abcmrt.process(speech, clip_num)` call and return its
`phi_hat` in aggregate mode. -/
def post_process (intellEst : String) (scorer : Scorer) (wnumOf : List Char → Nat)
    (audioGet : List Char → Except PyErr (Nat × RecData)) (audio_path : List Char)
    (trialsAttr : Nat) (testDat : List LoadedRow) : PPResult :=
  match ppLoop intellEst scorer wnumOf audioGet audio_path trialsAttr 0 testDat with
  | ⟨events, rows, _, _, _, some e⟩ => ⟨events, rows, .error e⟩
  | ⟨events, rows, speech, clip_num, success, none⟩ =>
    if intellEst = "aggregate" then
      ⟨events ++ [Event.scoreBatch speech clip_num], rows,
        .ok (some (scorer.processBatch speech clip_num).1)⟩
    else
      ⟨events, rows, .ok ((meanOpt success).map scorer.guess_correction)⟩

/-- Output row of an aggregate/none `post_process` pass: data taken from the
CSV, channel string re-normalized, intelligibility untouched. -/
def passThroughRow (r : LoadedRow) : CsvRow :=
  ⟨r.Timestamp, r.Filename, chansToStringT (r.channels.getD []),
    r.Over_runs, r.Under_runs, r.Intelligibility⟩

theorem ppLoop_aggregate_spec (scorer : Scorer) (wnumOf : List Char → Nat)
    (audioGet : List Char → Except PyErr (Nat × RecData)) (audio_path : List Char)
    (trialsAttr : Nat) (v : Nat → List Int) (dat : List LoadedRow) (n : Nat)
    (hch : ∀ k, k < dat.length → (dat.getD k dummyLoadedRow).channels ≠ none)
    (haud : ∀ k, k < dat.length →
      audioGet (pathJoin audio_path
          (rxClipName (n + k) ((dat.getD k dummyLoadedRow).Filename))) =
        .ok (abcmrt_fs, .mono (v (n + k)))) :
    ppLoop "aggregate" scorer wnumOf audioGet audio_path trialsAttr n dat =
      ⟨(List.range' n dat.length).map (fun i => Event.progress "proc" trialsAttr i),
       dat.map passThroughRow,
       (List.range' n dat.length).map v,
       ((List.range' n dat.length).zip dat).map (fun p =>
         wnumOf (pathJoin audio_path (rxClipName p.1 p.2.Filename))),
       [], none⟩ := by
  induction dat generalizing n with
  | nil => rfl
  | cons r rest ih =>
    obtain ⟨t, ht⟩ : ∃ t, r.channels = some t := by
      cases h : r.channels with
      | none => exact absurd (by simpa using h) (hch 0 (by simp))
      | some t => exact ⟨t, rfl⟩
    have haud0 : audioGet (pathJoin audio_path (rxClipName n r.Filename)) =
        .ok (abcmrt_fs, .mono (v n)) := by
      simpa using haud 0 (by simp)
    have hstep : ppTrialStep "aggregate" scorer wnumOf audioGet audio_path trialsAttr n r =
        ([Event.progress "proc" trialsAttr n],
          .ok ⟨passThroughRow r, [v n],
            [wnumOf (pathJoin audio_path (rxClipName n r.Filename))], []⟩) := by
      unfold ppTrialStep
      rw [if_neg (by decide)]
      rw [haud0]
      have hpa : process_audio "aggregate" scorer abcmrt_fs (.mono (v n)) (.tup t)
          (wnumOf (pathJoin audio_path (rxClipName n r.Filename))) =
          ([], .ok ⟨none, chansToStringT t, v n,
            wnumOf (pathJoin audio_path (rxClipName n r.Filename))⟩) := by
        unfold process_audio
        rw [if_neg (by simp)]
        simp [extractVoice, chans_to_string]
      simp only [ht]
      rw [hpa]
      simp [passThroughRow, ht]
    have hrest := ih (n + 1)
      (fun k hk => by simpa using hch (k + 1) (by simpa using Nat.succ_lt_succ hk))
      (fun k hk => by
        have := haud (k + 1) (by simpa using Nat.succ_lt_succ hk)
        simpa [Nat.add_assoc, Nat.add_comm 1 k] using this)
    show (ppLoop "aggregate" scorer wnumOf audioGet audio_path trialsAttr n (r :: rest)) = _
    unfold ppLoop
    rw [hstep]
    simp only [hrest]
    simp [List.range'_succ]

theorem filter_scoreBatch_progress (l : List Nat) (tag : String) (T : Nat) :
    (l.map (fun i => Event.progress tag T i)).filter Event.isScoreBatch = [] := by
  induction l with
  | nil => rfl
  | cons a as ih => simp [Event.isScoreBatch, ih]

theorem filter_scoreOne_progress (l : List Nat) (tag : String) (T : Nat) :
    (l.map (fun i => Event.progress tag T i)).filter Event.isScoreOne = [] := by
  induction l with
  | nil => rfl
  | cons a as ih => simp [Event.isScoreOne, ih]

/-- C1: in aggregate mode, `post_process` makes exactly one batch
`abcmrt.process` call, with the voice waveforms and clip word numbers of all
rows in capture order, makes no per-clip scorer call, passes every row through
with its captured (NaN) intelligibility value unchanged, and returns the
batch's bias-corrected estimate `phi_hat`. -/
theorem post_process_aggregate (scorer : Scorer) (wnumOf : List Char → Nat)
    (audioGet : List Char → Except PyErr (Nat × RecData)) (audio_path : List Char)
    (trialsAttr : Nat) (v : Nat → List Int) (dat : List LoadedRow)
    (hch : ∀ k, k < dat.length → (dat.getD k dummyLoadedRow).channels ≠ none)
    (haud : ∀ k, k < dat.length →
      audioGet (pathJoin audio_path
          (rxClipName k ((dat.getD k dummyLoadedRow).Filename))) =
        .ok (abcmrt_fs, .mono (v k))) :
    ((post_process "aggregate" scorer wnumOf audioGet audio_path trialsAttr dat).events.filter
        Event.isScoreBatch =
      [Event.scoreBatch ((List.range dat.length).map v)
        (((List.range dat.length).zip dat).map (fun p =>
          wnumOf (pathJoin audio_path (rxClipName p.1 p.2.Filename))))]) ∧
    ((post_process "aggregate" scorer wnumOf audioGet audio_path trialsAttr dat).events.filter
        Event.isScoreOne = []) ∧
    ((post_process "aggregate" scorer wnumOf audioGet audio_path trialsAttr dat).rows =
      dat.map passThroughRow) ∧
    ((post_process "aggregate" scorer wnumOf audioGet audio_path trialsAttr dat).rows.map
        (fun r => r.Intelligibility) = dat.map (fun r => r.Intelligibility)) ∧
    ((post_process "aggregate" scorer wnumOf audioGet audio_path trialsAttr dat).ret =
      .ok (some (scorer.processBatch ((List.range dat.length).map v)
        (((List.range dat.length).zip dat).map (fun p =>
          wnumOf (pathJoin audio_path (rxClipName p.1 p.2.Filename))))).1)) := by
  have hlift : ∀ k, k < dat.length →
      audioGet (pathJoin audio_path
          (rxClipName (0 + k) ((dat.getD k dummyLoadedRow).Filename))) =
        .ok (abcmrt_fs, .mono (v (0 + k))) := by
    intro k hk
    simpa using haud k hk
  have hloop := ppLoop_aggregate_spec scorer wnumOf audioGet audio_path trialsAttr v dat 0
    hch hlift
  have hrange : List.range' 0 dat.length = List.range dat.length :=
    (List.range_eq_range' dat.length).symm
  have hv : (List.range' 0 dat.length).map v = (List.range dat.length).map v := by
    rw [hrange]
  unfold post_process
  rw [hloop]
  simp only [hrange]
  refine ⟨?_, ?_, ?_, ?_, ?_⟩
  · simp [List.filter_append, filter_scoreBatch_progress, Event.isScoreBatch]
  · simp [List.filter_append, filter_scoreOne_progress, Event.isScoreOne]
  · simp
  · simp [passThroughRow]
  · simp

/-- Concrete loaded rows used by witnesses: captured rows with NaN
intelligibility. -/
def rowA : LoadedRow := ⟨cl "t1", cl "F1", some [cl "rx_voice"], 0, 0, none⟩

/-- Second concrete loaded row for witnesses. -/
def rowB : LoadedRow := ⟨cl "t2", cl "F2", some [cl "rx_voice"], 0, 0, none⟩

/-- C1 witness: the aggregate pass on two concrete captured rows, with a
constant audio store and scorer double. -/
theorem post_process_aggregate_witness :
    ((post_process "aggregate" constScorer (fun _ => 5)
        (fun _ => .ok (abcmrt_fs, .mono [1, 2])) (cl "wav") 2 [rowA, rowB]).events.filter
        Event.isScoreBatch =
      [Event.scoreBatch ((List.range 2).map (fun _ => [1, 2]))
        (((List.range 2).zip [rowA, rowB]).map (fun p =>
          (fun _ => 5) (pathJoin (cl "wav") (rxClipName p.1 p.2.Filename))))]) ∧
    ((post_process "aggregate" constScorer (fun _ => 5)
        (fun _ => .ok (abcmrt_fs, .mono [1, 2])) (cl "wav") 2 [rowA, rowB]).events.filter
        Event.isScoreOne = []) ∧
    ((post_process "aggregate" constScorer (fun _ => 5)
        (fun _ => .ok (abcmrt_fs, .mono [1, 2])) (cl "wav") 2 [rowA, rowB]).rows =
      [rowA, rowB].map passThroughRow) ∧
    ((post_process "aggregate" constScorer (fun _ => 5)
        (fun _ => .ok (abcmrt_fs, .mono [1, 2])) (cl "wav") 2 [rowA, rowB]).rows.map
        (fun r => r.Intelligibility) = [rowA, rowB].map (fun r => r.Intelligibility)) ∧
    ((post_process "aggregate" constScorer (fun _ => 5)
        (fun _ => .ok (abcmrt_fs, .mono [1, 2])) (cl "wav") 2 [rowA, rowB]).ret =
      .ok (some (constScorer.processBatch ((List.range 2).map (fun _ => [1, 2]))
        (((List.range 2).zip [rowA, rowB]).map (fun p =>
          (fun _ => 5) (pathJoin (cl "wav") (rxClipName p.1 p.2.Filename))))).1)) :=
  post_process_aggregate constScorer (fun _ => 5)
    (fun _ => .ok (abcmrt_fs, .mono [1, 2])) (cl "wav") 2 (fun _ => [1, 2]) [rowA, rowB]
    (by decide) (fun k hk => rfl)

/-- Concrete loaded row without a `channels` column (older/foreign CSV). -/
def rowNC : LoadedRow := ⟨cl "t1", cl "F1", none, 0, 0, some (9/10)⟩

/-- C8: the `except KeyError` fallback writes `rec_chans=('rx_voice')` — a
bare `str`, not the intended one-element tuple — so a row without a
`channels` column never processes: in mode `none` the merge line
`chans_to_string(trial['channels'])` raises `KeyError`, and in modes `trial`
and `aggregate` `process_audio` passes the fallback string to
`chans_to_string`, which raises `ValueError('Input can not be str')`. -/
theorem post_process_missing_channels_crashes :
    ((post_process "none" constScorer (fun _ => 5)
        (fun _ => .ok (abcmrt_fs, .mono [0])) (cl "wav") 1 [rowNC]).ret =
      .error (.keyError "channels")) ∧
    ((post_process "trial" constScorer (fun _ => 5)
        (fun _ => .ok (abcmrt_fs, .mono [0])) (cl "wav") 1 [rowNC]).ret =
      .error (.valueError "Input can not be str")) ∧
    ((post_process "aggregate" constScorer (fun _ => 5)
        (fun _ => .ok (abcmrt_fs, .mono [0])) (cl "wav") 1 [rowNC]).ret =
      .error (.valueError "Input can not be str")) :=
  ⟨rfl, rfl, rfl⟩

/-! ## TrialRunner
`measure.run` (intelligibility.py lines 298-484): validation, the capture
loop appending to the write-ahead TEMP csv, and the mode-dependent cleanup.
External collaborators (radio interface, audio interface, rng, clocks,
filesystem) are supplied through an environment of per-trial functions. -/

/-- Mutable attributes of the `measure` object that `run` reads and writes. -/
structure MeasureState : Type where
  intell_est : String
  trials : Nat
  deriving Repr, DecidableEq

/-- Environment of external collaborators for one `run` invocation. -/
structure RunEnv : Type where
  sample_rate : Nat
  playback_chans : List (List Char)
  rec_chan_keys : List (List Char)
  clipNames : List (List Char)
  perm : Nat → Nat
  wavdir : List Char
  ts : Nat → List Char
  recFs : Nat → Nat
  recData : Nat → RecData
  recChans : Nat → List (List Char)
  wnumOf : List Char → Nat
  cont : String → Nat → Nat → Bool
  scorer : Scorer
  audioGet : List Char → Except PyErr (Nat × RecData)

/-- Result of the capture loop: events, rows appended to the write-ahead
store, and the exception that aborted it (if any). -/
structure CapOut : Type where
  events : List Event
  rows : List CsvRow
  err : Option PyErr
  deriving Repr, DecidableEq

/-- Transmitted clip chosen for trial `i`:
`clip_names[self.clipi[i]]` with `clipi = rng.permutation(trials) % len(y)`. -/
def capFname (env : RunEnv) (i : Nat) : List Char :=
  env.clipNames.getD (env.perm i % env.clipNames.length) []

/-- Full path of the received clip of trial `i`. -/
def capPath (env : RunEnv) (i : Nat) : List Char :=
  pathJoin env.wavdir (rxClipName i (capFname env i))

/-- Intelligibility value captured for trial `i`: per-trial score in `trial`
mode, NaN otherwise. -/
def capScore (mode : String) (env : RunEnv) (v : Nat → List Int) (i : Nat) : Option ℚ :=
  if mode = "trial" then
    ((env.scorer.processOne (v i) (env.wnumOf (capPath env i))).2).head?
  else none

/-- CSV row appended for trial `i` (`Over_runs`/`Under_runs` are written as
`0`). -/
def capturedRow (mode : String) (env : RunEnv) (v : Nat → List Int) (i : Nat) : CsvRow :=
  ⟨env.ts i, capFname env i, chansToStringT (env.recChans i), 0, 0, capScore mode env v i⟩

/-- Events emitted for trial `i`: the progress call and, in `trial` mode, the
per-clip scorer call. -/
def capEvents (mode : String) (env : RunEnv) (N : Nat) (v : Nat → List Int) (i : Nat) :
    List Event :=
  Event.progress "test" N i ::
    (if mode = "trial" then [Event.scoreOne (v i) (env.wnumOf (capPath env i))] else [])

/-- The capture loop (lines 395-438) from trial `idx` with `rem` trials left:
check the progress callback (break on `False`), play/record, process audio,
append the row to the write-ahead store.  Any exception aborts the loop,
keeping the rows already flushed. -/
def captureFrom (mode : String) (env : RunEnv) (N : Nat) : Nat → Nat → CapOut
  | _, 0 => ⟨[], [], none⟩
  | idx, rem + 1 =>
    if env.cont "test" N idx = false then
      ⟨[Event.progress "test" N idx], [], none⟩
    else
      let fname := capFname env idx
      let pa := process_audio mode env.scorer (env.recFs idx) (env.recData idx)
        (.tup (env.recChans idx)) (env.wnumOf (capPath env idx))
      match pa.2 with
      | .error e => ⟨Event.progress "test" N idx :: pa.1, [], some e⟩
      | .ok out =>
        let row : CsvRow := ⟨env.ts idx, fname, out.channels, 0, 0, out.Intelligibility⟩
        let rest := captureFrom mode env N (idx + 1) rem
        ⟨Event.progress "test" N idx :: (pa.1 ++ rest.events), row :: rest.rows, rest.err⟩

/-- Result of one `run` invocation: final attribute state, write-ahead rows
at end of capture, rows at the final csv path, events, and the returned
estimate (or the propagated exception). -/
structure RunOut : Type where
  state : MeasureState
  tempRows : List CsvRow
  finalRows : List CsvRow
  events : List Event
  ret : Except PyErr (Option ℚ)
  deriving Repr, DecidableEq

/-- Embedding of `measure.run` (intelligibility.py lines 298-484): entry
validation (sample rate, tx/rx voice channels, non-empty clip list), the
capture loop into the TEMP csv, then mode-dependent cleanup — `aggregate`
reloads the TEMP rows and post-processes them into the final csv;
`trial` promotes the TEMP file, reloads it, overwrites `self.intell_est`
with `'none'` and post-processes for the summary value only; any other mode
promotes the TEMP file verbatim and returns NaN. -/
def run (st : MeasureState) (env : RunEnv) : RunOut :=
  if env.sample_rate ≠ abcmrt_fs then
    ⟨st, [], [], [], .error (.valueError "audio_interface sample rate is not supported")⟩
  else if cl "tx_voice" ∉ env.playback_chans then
    ⟨st, [], [], [], .error (.valueError "self.audio_interface must be set up to play tx_voice")⟩
  else if cl "rx_voice" ∉ env.rec_chan_keys then
    ⟨st, [], [], [], .error (.valueError "self.audio_interface must be set up to record rx_voice")⟩
  else if env.clipNames = [] then
    ⟨st, [], [], [], .error (.valueError "Expected self.audio_files to not be empty")⟩
  else
    match captureFrom st.intell_est env st.trials 0 st.trials with
    | ⟨evs, rows, some e⟩ => ⟨st, rows, [], evs, .error e⟩
    | ⟨evs, rows, none⟩ =>
      if st.intell_est = "aggregate" then
        match loadRows rows with
        | .error e => ⟨st, rows, [], evs, .error e⟩
        | .ok dat =>
          ⟨⟨st.intell_est, dat.length⟩, rows,
            (post_process "aggregate" env.scorer env.wnumOf env.audioGet
              env.wavdir dat.length dat).rows,
            evs ++ (post_process "aggregate" env.scorer env.wnumOf env.audioGet
              env.wavdir dat.length dat).events,
            (post_process "aggregate" env.scorer env.wnumOf env.audioGet
              env.wavdir dat.length dat).ret⟩
      else if st.intell_est = "trial" then
        match loadRows rows with
        | .error e => ⟨st, rows, rows, evs, .error e⟩
        | .ok dat =>
          ⟨⟨"none", dat.length⟩, rows, rows,
            evs ++ (post_process "none" env.scorer env.wnumOf env.audioGet
              env.wavdir dat.length dat).events,
            (post_process "none" env.scorer env.wnumOf env.audioGet
              env.wavdir dat.length dat).ret⟩
      else
        ⟨st, rows, rows, evs, .ok none⟩

theorem process_audio_capture_eval (mode : String) (scorer : Scorer) (v : List Int)
    (w : Nat) (chans : List (List Char))
    (hne : mode = "trial" → (scorer.processOne v w).2 ≠ []) :
    process_audio mode scorer abcmrt_fs (.mono v) (.tup chans) w =
      ((if mode = "trial" then [Event.scoreOne v w] else []),
        .ok ⟨(if mode = "trial" then (scorer.processOne v w).2.head? else none),
          chansToStringT chans, v, w⟩) := by
  unfold process_audio
  rw [if_neg (by simp)]
  by_cases htrial : mode = "trial"
  · obtain ⟨s, rest, hs⟩ : ∃ s rest, (scorer.processOne v w).2 = s :: rest := by
      cases h : (scorer.processOne v w).2 with
      | nil => exact absurd h (hne htrial)
      | cons a as => exact ⟨a, as, rfl⟩
    simp [extractVoice, htrial, hs, chans_to_string]
  · simp [extractVoice, htrial, chans_to_string]

theorem captureFrom_spec (mode : String) (env : RunEnv) (N : Nat) (v : Nat → List Int)
    (rem : Nat) : ∀ (idx k : Nat), k ≤ rem →
    (∀ i, idx ≤ i → i < idx + k → env.cont "test" N i = true) →
    (k < rem → env.cont "test" N (idx + k) = false) →
    (∀ i, idx ≤ i → i < idx + k → env.recFs i = abcmrt_fs) →
    (∀ i, idx ≤ i → i < idx + k → env.recData i = .mono (v i)) →
    (mode = "trial" → ∀ a w, (env.scorer.processOne a w).2 ≠ []) →
    captureFrom mode env N idx rem =
      ⟨((List.range' idx k).map (capEvents mode env N v)).flatten ++
        (if k < rem then [Event.progress "test" N (idx + k)] else []),
       (List.range' idx k).map (capturedRow mode env v), none⟩ := by
  induction rem with
  | zero =>
    intro idx k hk hct hcf hfs hmono htr
    have hk0 : k = 0 := Nat.le_zero.mp hk
    subst hk0
    simp [captureFrom]
  | succ rem ih =>
    intro idx k hk hct hcf hfs hmono htr
    cases k with
    | zero =>
      have hstop : env.cont "test" N idx = false := by
        simpa using hcf (Nat.zero_lt_succ rem)
      show captureFrom mode env N idx (rem + 1) = _
      unfold captureFrom
      rw [if_pos hstop]
      simp
    | succ k' =>
      have hgo : env.cont "test" N idx = true := hct idx (Nat.le_refl idx) (by omega)
      have hfs0 : env.recFs idx = abcmrt_fs := hfs idx (Nat.le_refl idx) (by omega)
      have hmono0 : env.recData idx = .mono (v idx) := hmono idx (Nat.le_refl idx) (by omega)
      have hpa := process_audio_capture_eval mode env.scorer (v idx)
        (env.wnumOf (capPath env idx)) (env.recChans idx)
        (fun hm => htr hm (v idx) (env.wnumOf (capPath env idx)))
      have hrest := ih (idx + 1) k' (by omega)
        (fun i hi1 hi2 => hct i (by omega) (by omega))
        (fun hlt => by
          have := hcf (by omega)
          simpa [Nat.add_assoc, Nat.add_comm 1 k'] using this)
        (fun i hi1 hi2 => hfs i (by omega) (by omega))
        (fun i hi1 hi2 => hmono i (by omega) (by omega))
        htr
      show captureFrom mode env N idx (rem + 1) = _
      unfold captureFrom
      rw [if_neg (by simp [hgo])]
      simp only [hfs0, hmono0, hpa, hrest]
      rw [List.range'_succ]
      simp only [List.map_cons, List.flatten_cons, capEvents, capturedRow, capScore]
      have hidx : idx + (k' + 1) = idx + 1 + k' := by omega
      have hlt_iff : (k' + 1 < rem + 1) = (k' < rem) := by
        simp [Nat.succ_lt_succ_iff]
      simp [hidx, Nat.succ_lt_succ_iff, List.append_assoc]

/-- C5: when the progress callback returns `False` at trial `k` (0-indexed) of
`N`, the capture loop stops and the write-ahead store holds exactly the `k`
rows of the completed trials `0..k-1`, in order — no row beyond `k`, and no
flushed row is rolled back by the cleanup. -/
theorem run_cancellation (st : MeasureState) (env : RunEnv) (v : Nat → List Int) (k : Nat)
    (hsr : env.sample_rate = abcmrt_fs)
    (htx : cl "tx_voice" ∈ env.playback_chans)
    (hrx : cl "rx_voice" ∈ env.rec_chan_keys)
    (hclips : env.clipNames ≠ [])
    (hk : k < st.trials)
    (hct : ∀ i, i < k → env.cont "test" st.trials i = true)
    (hcf : env.cont "test" st.trials k = false)
    (hfs : ∀ i, i < k → env.recFs i = abcmrt_fs)
    (hmono : ∀ i, i < k → env.recData i = .mono (v i))
    (htr : st.intell_est = "trial" → ∀ a w, (env.scorer.processOne a w).2 ≠ []) :
    (run st env).tempRows = (List.range k).map (capturedRow st.intell_est env v) ∧
    (run st env).tempRows.length = k := by
  have hcap := captureFrom_spec st.intell_est env st.trials v st.trials 0 k (le_of_lt hk)
    (fun i _ h1 => hct i (by omega)) (fun _ => by simpa using hcf)
    (fun i _ h1 => hfs i (by omega)) (fun i _ h1 => hmono i (by omega)) htr
  have hrows : (run st env).tempRows = (List.range' 0 k).map (capturedRow st.intell_est env v) := by
    unfold run
    rw [if_neg (by simp [hsr]), if_neg (by simp [htx]), if_neg (by simp [hrx]),
      if_neg (by simp [hclips])]
    simp only [hcap]
    by_cases hagg : st.intell_est = "aggregate"
    · rw [if_pos hagg]
      rcases hload : loadRows ((List.range' 0 k).map (capturedRow st.intell_est env v)) with e | dat
      · simp [hload]
      · simp [hload]
    · rw [if_neg hagg]
      by_cases htrial : st.intell_est = "trial"
      · rw [if_pos htrial]
        rcases hload : loadRows ((List.range' 0 k).map (capturedRow st.intell_est env v)) with e | dat
        · simp [hload]
        · simp [hload]
      · rw [if_neg htrial]
  rw [← List.range_eq_range'] at hrows
  exact ⟨hrows, by rw [hrows]; simp⟩

/-- Concrete run environment for witnesses: one clip, mono recordings, a
callback cancelling at trial 2. -/
def envW : RunEnv :=
  ⟨abcmrt_fs, [cl "tx_voice"], [cl "rx_voice"], [cl "F1"], fun _ => 0, cl "wav",
   fun _ => cl "ts", fun _ => abcmrt_fs, fun _ => .mono [0], fun _ => [cl "rx_voice"],
   fun _ => 7, fun _ _ i => decide (i < 2), constScorer, fun _ => .ok (abcmrt_fs, .mono [0])⟩

/-- C5 witness: a 3-trial run in mode `none` cancelled at trial 2 leaves
exactly the 2 completed rows in the write-ahead store. -/
theorem run_cancellation_witness :
    (run ⟨"none", 3⟩ envW).tempRows =
      (List.range 2).map (capturedRow "none" envW (fun _ => [0])) ∧
    (run ⟨"none", 3⟩ envW).tempRows.length = 2 :=
  run_cancellation ⟨"none", 3⟩ envW (fun _ => [0]) 2 rfl (by decide) (by decide) (by decide)
    (by decide)
    (fun i hi => by
      show decide (i < 2) = true
      simpa using hi)
    rfl
    (fun i _ => rfl) (fun i _ => rfl) (fun h => absurd h (by decide))

/-- Well-formed recorded channel tuple: round trips through the channel
string grammar. -/
def ChansOK (c : List (List Char)) : Prop :=
  c ≠ [] ∧ c ≠ [[]] ∧ ∀ l ∈ c, ';' ∉ l ∧ ')' ∉ l

/-- Loaded image of a captured row. -/
def loadedCapRow (mode : String) (env : RunEnv) (v : Nat → List Int) (i : Nat) : LoadedRow :=
  ⟨env.ts i, capFname env i, some (env.recChans i), 0, 0, capScore mode env v i⟩

theorem loadRow_capturedRow (mode : String) (env : RunEnv) (v : Nat → List Int) (i : Nat)
    (h : ChansOK (env.recChans i)) :
    loadRow (capturedRow mode env v i) = .ok (loadedCapRow mode env v i) := by
  unfold loadRow capturedRow loadedCapRow
  rw [parse_chans_roundtrip _ h.1 h.2.1 h.2.2]

theorem loadRows_map_captured (mode : String) (env : RunEnv) (v : Nat → List Int)
    (l : List Nat) (h : ∀ i ∈ l, ChansOK (env.recChans i)) :
    loadRows (l.map (capturedRow mode env v)) = .ok (l.map (loadedCapRow mode env v)) := by
  induction l with
  | nil => rfl
  | cons a as ih =>
    show loadRows (capturedRow mode env v a :: as.map (capturedRow mode env v)) = _
    unfold loadRows
    rw [loadRow_capturedRow mode env v a (h a (List.mem_cons_self _ _)),
      ih (fun i hi => h i (List.mem_cons_of_mem _ hi))]
    rfl

theorem ppLoop_none_spec (scorer : Scorer) (wnumOf : List Char → Nat)
    (audioGet : List Char → Except PyErr (Nat × RecData)) (audio_path : List Char)
    (T : Nat) (dat : List LoadedRow) (n : Nat)
    (hch : ∀ r ∈ dat, r.channels ≠ none) :
    ppLoop "none" scorer wnumOf audioGet audio_path T n dat =
      ⟨(List.range' n dat.length).map (fun i => Event.progress "proc" T i),
       dat.map passThroughRow, [], [], dat.map (fun r => r.Intelligibility), none⟩ := by
  induction dat generalizing n with
  | nil => rfl
  | cons r rest ih =>
    obtain ⟨t, ht⟩ : ∃ t, r.channels = some t := by
      cases h : r.channels with
      | none => exact absurd h (hch r (List.mem_cons_self _ _))
      | some t => exact ⟨t, rfl⟩
    have hstep : ppTrialStep "none" scorer wnumOf audioGet audio_path T n r =
        ([Event.progress "proc" T n],
          .ok ⟨passThroughRow r, [], [], [r.Intelligibility]⟩) := by
      unfold ppTrialStep
      rw [if_pos rfl]
      simp [ht, passThroughRow]
    unfold ppLoop
    rw [hstep]
    simp only [ih (n + 1) (fun x hx => hch x (List.mem_cons_of_mem _ hx))]
    simp [List.range'_succ]

theorem meanOpt_map_some (qs : List ℚ) (h : qs ≠ []) :
    meanOpt (qs.map some) = some (meanQ qs) := by
  unfold meanOpt
  rw [if_neg (by simp [h])]
  simp only [List.map_map]
  have hid : qs.map ((fun o => Option.getD o 0) ∘ some) = qs := by
    simp [Function.comp_def]
  rw [hid]

theorem head?_eq_headD (l : List ℚ) (h : l ≠ []) : l.head? = some (l.headD 0) := by
  cases l with
  | nil => exact absurd rfl h
  | cons a as => rfl

theorem filter_scoreOne_capEvents_trial (env : RunEnv) (N : Nat) (v : Nat → List Int)
    (l : List Nat) :
    ((l.map (capEvents "trial" env N v)).flatten).filter Event.isScoreOne =
      l.map (fun i => Event.scoreOne (v i) (env.wnumOf (capPath env i))) := by
  induction l with
  | nil => rfl
  | cons a as ih =>
    simp [capEvents, List.filter_append, Event.isScoreOne, ih]

theorem filter_scoreBatch_capEvents (mode : String) (env : RunEnv) (N : Nat)
    (v : Nat → List Int) (l : List Nat) :
    ((l.map (capEvents mode env N v)).flatten).filter Event.isScoreBatch = [] := by
  induction l with
  | nil => rfl
  | cons a as ih =>
    by_cases hm : mode = "trial"
    · simp [capEvents, hm, List.filter_append, Event.isScoreBatch, ih]
    · simp [capEvents, hm, List.filter_append, Event.isScoreBatch, ih]

/-- C2: in per-trial mode the per-clip scorer runs exactly once per trial, in
trial order, during the capture loop (no batch call is made), and `run`
returns `abcmrt.guess_correction` of the arithmetic mean of the per-trial
scores. -/
theorem run_trial_mode (st : MeasureState) (env : RunEnv) (v : Nat → List Int)
    (hmode : st.intell_est = "trial")
    (hsr : env.sample_rate = abcmrt_fs)
    (htx : cl "tx_voice" ∈ env.playback_chans)
    (hrx : cl "rx_voice" ∈ env.rec_chan_keys)
    (hclips : env.clipNames ≠ [])
    (hN : 0 < st.trials)
    (hct : ∀ i, i < st.trials → env.cont "test" st.trials i = true)
    (hfs : ∀ i, i < st.trials → env.recFs i = abcmrt_fs)
    (hmono : ∀ i, i < st.trials → env.recData i = .mono (v i))
    (hchans : ∀ i, i < st.trials → ChansOK (env.recChans i))
    (hso : ∀ a w, (env.scorer.processOne a w).2 ≠ []) :
    (run st env).events.filter Event.isScoreOne =
      (List.range st.trials).map (fun i =>
        Event.scoreOne (v i) (env.wnumOf (capPath env i))) ∧
    (run st env).events.filter Event.isScoreBatch = [] ∧
    (run st env).ret = .ok (some (env.scorer.guess_correction (meanQ
      ((List.range st.trials).map (fun i =>
        ((env.scorer.processOne (v i) (env.wnumOf (capPath env i))).2).headD 0))))) := by
  have hcap := captureFrom_spec "trial" env st.trials v st.trials 0 st.trials
    (Nat.le_refl _)
    (fun i _ h1 => hct i (by omega))
    (fun h => absurd h (lt_irrefl _))
    (fun i _ h1 => hfs i (by omega))
    (fun i _ h1 => hmono i (by omega))
    (fun _ => hso)
  rw [if_neg (lt_irrefl st.trials)] at hcap
  have hload := loadRows_map_captured "trial" env v (List.range' 0 st.trials)
    (fun i hi => hchans i (by
      have := List.mem_range'_1.mp hi
      omega))
  have hfun : ∀ i, capScore "trial" env v i =
      some (((env.scorer.processOne (v i) (env.wnumOf (capPath env i))).2).headD 0) := by
    intro i
    unfold capScore
    rw [if_pos rfl, head?_eq_headD _ (hso _ _)]
  have hdatlen : ((List.range' 0 st.trials).map (loadedCapRow "trial" env v)).length =
      st.trials := by simp
  have hpp :
      post_process "none" env.scorer env.wnumOf env.audioGet env.wavdir
        ((List.range' 0 st.trials).map (loadedCapRow "trial" env v)).length
        ((List.range' 0 st.trials).map (loadedCapRow "trial" env v)) =
      ⟨(List.range' 0 ((List.range' 0 st.trials).map (loadedCapRow "trial" env v)).length).map
          (fun i => Event.progress "proc"
            ((List.range' 0 st.trials).map (loadedCapRow "trial" env v)).length i),
        ((List.range' 0 st.trials).map (loadedCapRow "trial" env v)).map passThroughRow,
        .ok (some (env.scorer.guess_correction (meanQ ((List.range' 0 st.trials).map
          (fun i => ((env.scorer.processOne (v i) (env.wnumOf (capPath env i))).2).headD 0)))))⟩ := by
    unfold post_process
    rw [ppLoop_none_spec env.scorer env.wnumOf env.audioGet env.wavdir _ _ 0
      (fun r hr => by
        obtain ⟨i, hi, rfl⟩ := List.mem_map.mp hr
        simp [loadedCapRow])]
    have hsucc : ((List.range' 0 st.trials).map (loadedCapRow "trial" env v)).map
        (fun r => r.Intelligibility) =
        (((List.range' 0 st.trials).map (fun i =>
          ((env.scorer.processOne (v i) (env.wnumOf (capPath env i))).2).headD 0)).map some) := by
      rw [List.map_map, List.map_map]
      apply List.map_congr_left
      intro i _
      exact hfun i
    simp only [hsucc]
    rw [meanOpt_map_some _ (by
      simp only [ne_eq, List.map_eq_nil_iff]
      intro hcon
      rw [List.range'_eq_nil] at hcon
      omega)]
    simp
  unfold run
  rw [if_neg (by simp [hsr]), if_neg (by simp [htx]), if_neg (by simp [hrx]),
    if_neg (by simp [hclips])]
  simp only [hmode]
  simp only [hcap]
  rw [if_neg (by decide)]
  simp only [if_true]
  simp only [hload]
  simp only [hpp]
  simp only [List.range_eq_range']
  refine ⟨?_, ?_, ?_⟩
  · rw [List.filter_append, List.filter_append, filter_scoreOne_capEvents_trial,
      filter_scoreOne_progress]
    simp
  · rw [List.filter_append, List.filter_append, filter_scoreBatch_capEvents,
      filter_scoreBatch_progress]
    simp
  · trivial

/-- Concrete run environment for the trial-mode witness: one clip, mono
recordings, never cancelled. -/
def envT : RunEnv :=
  ⟨abcmrt_fs, [cl "tx_voice"], [cl "rx_voice"], [cl "F1"], fun _ => 0, cl "wav",
   fun _ => cl "ts", fun _ => abcmrt_fs, fun _ => .mono [3], fun _ => [cl "rx_voice"],
   fun _ => 7, fun _ _ _ => true, constScorer, fun _ => .ok (abcmrt_fs, .mono [3])⟩

/-- C2 witness: a 2-trial run in mode `trial` scores each clip once in order
and returns the corrected mean of the per-trial scores. -/
theorem run_trial_mode_witness :
    (run ⟨"trial", 2⟩ envT).events.filter Event.isScoreOne =
      (List.range 2).map (fun i =>
        Event.scoreOne ((fun _ => ([3] : List Int)) i) (envT.wnumOf (capPath envT i))) ∧
    (run ⟨"trial", 2⟩ envT).events.filter Event.isScoreBatch = [] ∧
    (run ⟨"trial", 2⟩ envT).ret = .ok (some (envT.scorer.guess_correction (meanQ
      ((List.range 2).map (fun i =>
        ((envT.scorer.processOne ((fun _ => ([3] : List Int)) i)
          (envT.wnumOf (capPath envT i))).2).headD 0))))) :=
  run_trial_mode ⟨"trial", 2⟩ envT (fun _ => [3]) rfl rfl (by decide) (by decide) (by decide)
    (by decide) (fun i _ => rfl) (fun i _ => rfl) (fun i _ => rfl)
    (fun i _ => (⟨by decide, by decide, by decide⟩ : ChansOK [cl "rx_voice"]))
    (fun a w => by simp [envT, constScorer])

theorem process_audio_events_not_trial (mode : String) (scorer : Scorer) (fs : Nat)
    (rec : RecData) (chans : ChanArg) (w : Nat) (hm : mode ≠ "trial") :
    (process_audio mode scorer fs rec chans w).1 = [] := by
  unfold process_audio
  split
  · rfl
  · cases hv : extractVoice rec chans with
    | error e => simp [hv]
    | ok voice =>
      simp only [hv]
      cases hcs : chans_to_string chans with
      | error e => simp [hcs]
      | ok s => simp [hcs]

theorem captureFrom_no_score (mode : String) (env : RunEnv) (N : Nat) (hm : mode ≠ "trial") :
    ∀ rem idx, (captureFrom mode env N idx rem).events.filter Event.isScoreOne = [] ∧
      (captureFrom mode env N idx rem).events.filter Event.isScoreBatch = [] := by
  intro rem
  induction rem with
  | zero => intro idx; exact ⟨rfl, rfl⟩
  | succ rem ih =>
    intro idx
    show (captureFrom mode env N idx (rem + 1)).events.filter Event.isScoreOne = [] ∧ _
    unfold captureFrom
    by_cases hstop : env.cont "test" N idx = false
    · rw [if_pos hstop]
      exact ⟨rfl, rfl⟩
    · rw [if_neg hstop]
      have hpa := process_audio_events_not_trial mode env.scorer (env.recFs idx)
        (env.recData idx) (.tup (env.recChans idx)) (env.wnumOf (capPath env idx)) hm
      cases hres : (process_audio mode env.scorer (env.recFs idx) (env.recData idx)
          (.tup (env.recChans idx)) (env.wnumOf (capPath env idx))).2 with
      | error e =>
        simp [hres, hpa, Event.isScoreOne, Event.isScoreBatch]
      | ok out =>
        have hrest := ih (idx + 1)
        simp [hres, hpa, Event.isScoreOne, Event.isScoreBatch, List.filter_append,
          hrest.1, hrest.2]

/-- C10: running with `intell_est == 'trial'` permanently overwrites the
attribute to `'none'` before the final post-processing pass, so every later
`run` on the same object does no scoring at all: no per-clip or batch scorer
call is made, and any normally-returned estimate is NaN. -/
theorem run_trial_overwrites_mode (st : MeasureState) (env : RunEnv) (v : Nat → List Int)
    (hmode : st.intell_est = "trial")
    (hsr : env.sample_rate = abcmrt_fs)
    (htx : cl "tx_voice" ∈ env.playback_chans)
    (hrx : cl "rx_voice" ∈ env.rec_chan_keys)
    (hclips : env.clipNames ≠ [])
    (hct : ∀ i, i < st.trials → env.cont "test" st.trials i = true)
    (hfs : ∀ i, i < st.trials → env.recFs i = abcmrt_fs)
    (hmono : ∀ i, i < st.trials → env.recData i = .mono (v i))
    (hchans : ∀ i, i < st.trials → ChansOK (env.recChans i))
    (hso : ∀ a w, (env.scorer.processOne a w).2 ≠ []) :
    (run st env).state.intell_est = "none" ∧
    (∀ (st2 : MeasureState) (env2 : RunEnv), st2.intell_est = "none" →
      (run st2 env2).events.filter Event.isScoreOne = [] ∧
      (run st2 env2).events.filter Event.isScoreBatch = [] ∧
      ∀ q, (run st2 env2).ret = .ok q → q = none) := by
  constructor
  · have hcap := captureFrom_spec "trial" env st.trials v st.trials 0 st.trials
      (Nat.le_refl _)
      (fun i _ h1 => hct i (by omega))
      (fun h => absurd h (lt_irrefl _))
      (fun i _ h1 => hfs i (by omega))
      (fun i _ h1 => hmono i (by omega))
      (fun _ => hso)
    rw [if_neg (lt_irrefl st.trials)] at hcap
    have hload := loadRows_map_captured "trial" env v (List.range' 0 st.trials)
      (fun i hi => hchans i (by
        have := List.mem_range'_1.mp hi
        omega))
    unfold run
    rw [if_neg (by simp [hsr]), if_neg (by simp [htx]), if_neg (by simp [hrx]),
      if_neg (by simp [hclips])]
    simp only [hmode]
    simp only [hcap]
    rw [if_neg (by decide)]
    simp only [if_true]
    simp only [hload]
  · intro st2 env2 hnone
    obtain ⟨ie, tr⟩ := st2
    simp only at hnone
    subst hnone
    unfold run
    by_cases h1 : env2.sample_rate ≠ abcmrt_fs
    · rw [if_pos h1]
      exact ⟨rfl, rfl, fun q hq => Except.noConfusion hq⟩
    rw [if_neg h1]
    by_cases h2 : cl "tx_voice" ∉ env2.playback_chans
    · rw [if_pos h2]
      exact ⟨rfl, rfl, fun q hq => Except.noConfusion hq⟩
    rw [if_neg h2]
    by_cases h3 : cl "rx_voice" ∉ env2.rec_chan_keys
    · rw [if_pos h3]
      exact ⟨rfl, rfl, fun q hq => Except.noConfusion hq⟩
    rw [if_neg h3]
    by_cases h4 : env2.clipNames = []
    · rw [if_pos h4]
      exact ⟨rfl, rfl, fun q hq => Except.noConfusion hq⟩
    rw [if_neg h4]
    have hnos := captureFrom_no_score "none" env2 tr (by decide) tr 0
    cases hc : captureFrom "none" env2 tr 0 tr with
    | mk evs rows err =>
      rw [hc] at hnos
      cases err with
      | some e =>
        exact ⟨hnos.1, hnos.2, fun q hq => Except.noConfusion hq⟩
      | none =>
        exact ⟨hnos.1, hnos.2, fun q hq => (Except.ok.inj hq).symm⟩

/-- C10 witness: the overwrite observed on a concrete 2-trial `trial`-mode
run. -/
theorem run_trial_overwrites_mode_witness :
    (run ⟨"trial", 2⟩ envT).state.intell_est = "none" ∧
    (∀ (st2 : MeasureState) (env2 : RunEnv), st2.intell_est = "none" →
      (run st2 env2).events.filter Event.isScoreOne = [] ∧
      (run st2 env2).events.filter Event.isScoreBatch = [] ∧
      ∀ q, (run st2 env2).ret = .ok q → q = none) :=
  run_trial_overwrites_mode ⟨"trial", 2⟩ envT (fun _ => [3]) rfl rfl (by decide) (by decide)
    (by decide) (fun i _ => rfl) (fun i _ => rfl) (fun i _ => rfl)
    (fun i _ => (⟨by decide, by decide, by decide⟩ : ChansOK [cl "rx_voice"]))
    (fun a w => by simp [envT, constScorer])

theorem process_audio_events_shape (mode : String) (scorer : Scorer) (fs : Nat)
    (rec : RecData) (chans : ChanArg) (w : Nat) :
    (process_audio mode scorer fs rec chans w).1 = [] ∨
    ∃ a b, (process_audio mode scorer fs rec chans w).1 = [Event.scoreOne a b] := by
  unfold process_audio
  split
  · exact Or.inl rfl
  · cases hv : extractVoice rec chans with
    | error er => simp [hv]
    | ok voice =>
      simp only [hv]
      by_cases hm : mode = "trial"
      · rw [if_pos hm]
        cases hh : (scorer.processOne voice w).2.head? with
        | none => exact Or.inr ⟨voice, w, by simp [hh]⟩
        | some s =>
          cases hcs : chans_to_string chans with
          | error er2 => exact Or.inr ⟨voice, w, by simp [hh, hcs]⟩
          | ok chs => exact Or.inr ⟨voice, w, by simp [hh, hcs]⟩
      · rw [if_neg hm]
        cases hcs : chans_to_string chans with
        | error er2 => exact Or.inl (by simp [hcs])
        | ok chs => exact Or.inl (by simp [hcs])

theorem process_audio_event_mem (mode : String) (scorer : Scorer) (fs : Nat)
    (rec : RecData) (chans : ChanArg) (w : Nat) (e : Event)
    (he : e ∈ (process_audio mode scorer fs rec chans w).1) :
    e.isProgress = false ∧ e.isScoreBatch = false := by
  rcases process_audio_events_shape mode scorer fs rec chans w with h | ⟨a, b, h⟩
  · rw [h] at he
    cases he
  · rw [h] at he
    rcases List.mem_singleton.mp he with rfl
    exact ⟨rfl, rfl⟩

/-- Tag argument of a progress-callback invocation. -/
def progressTag : Event → String
  | .progress t _ _ => t
  | _ => ""

theorem captureFrom_tags (mode : String) (env : RunEnv) (N : Nat) :
    ∀ rem idx e, e ∈ (captureFrom mode env N idx rem).events → e.isProgress = true →
      progressTag e = "test" := by
  intro rem
  induction rem with
  | zero =>
    intro idx e he _
    cases he
  | succ rem ih =>
    intro idx e he hp
    rw [show captureFrom mode env N idx (rem + 1) =
        (if env.cont "test" N idx = false then
          ⟨[Event.progress "test" N idx], [], none⟩
        else
          match (process_audio mode env.scorer (env.recFs idx) (env.recData idx)
            (.tup (env.recChans idx)) (env.wnumOf (capPath env idx))).2 with
          | .error e =>
            ⟨Event.progress "test" N idx ::
              (process_audio mode env.scorer (env.recFs idx) (env.recData idx)
                (.tup (env.recChans idx)) (env.wnumOf (capPath env idx))).1, [], some e⟩
          | .ok out =>
            ⟨Event.progress "test" N idx ::
              ((process_audio mode env.scorer (env.recFs idx) (env.recData idx)
                (.tup (env.recChans idx)) (env.wnumOf (capPath env idx))).1 ++
                (captureFrom mode env N (idx + 1) rem).events),
              (⟨env.ts idx, capFname env idx, out.channels, 0, 0, out.Intelligibility⟩ : CsvRow) ::
                (captureFrom mode env N (idx + 1) rem).rows,
              (captureFrom mode env N (idx + 1) rem).err⟩) from rfl] at he
    by_cases hstop : env.cont "test" N idx = false
    · rw [if_pos hstop] at he
      rcases List.mem_singleton.mp he with rfl
      rfl
    · rw [if_neg hstop] at he
      cases hres : (process_audio mode env.scorer (env.recFs idx) (env.recData idx)
          (.tup (env.recChans idx)) (env.wnumOf (capPath env idx))).2 with
      | error er =>
        rw [hres] at he
        rcases List.mem_cons.mp he with rfl | hmem
        · rfl
        · have := process_audio_event_mem mode env.scorer (env.recFs idx) (env.recData idx)
            (.tup (env.recChans idx)) (env.wnumOf (capPath env idx)) e hmem
          rw [hp] at this
          exact Bool.noConfusion this.1
      | ok out =>
        rw [hres] at he
        rcases List.mem_cons.mp he with rfl | hmem
        · rfl
        · rcases List.mem_append.mp hmem with hmem2 | hmem2
          · have := process_audio_event_mem mode env.scorer (env.recFs idx) (env.recData idx)
              (.tup (env.recChans idx)) (env.wnumOf (capPath env idx)) e hmem2
            rw [hp] at this
            exact Bool.noConfusion this.1
          · exact ih (idx + 1) e hmem2 hp

theorem ppTrialStep_events_shape (intellEst : String) (scorer : Scorer)
    (wnumOf : List Char → Nat) (audioGet : List Char → Except PyErr (Nat × RecData))
    (audio_path : List Char) (T n : Nat) (trial : LoadedRow) :
    ∃ tail, (ppTrialStep intellEst scorer wnumOf audioGet audio_path T n trial).1 =
      Event.progress "proc" T n :: tail ∧
      ∀ e ∈ tail, e.isProgress = false := by
  unfold ppTrialStep
  by_cases h0 : intellEst = "none"
  · rw [if_pos h0]
    cases trial.channels with
    | none => exact ⟨[], rfl, fun e he => absurd he (List.not_mem_nil e)⟩
    | some t => exact ⟨[], rfl, fun e he => absurd he (List.not_mem_nil e)⟩
  · rw [if_neg h0]
    cases haud : audioGet (pathJoin audio_path (rxClipName n trial.Filename)) with
    | error er =>
      exact ⟨[], rfl, fun e he => absurd he (List.not_mem_nil e)⟩
    | ok p =>
      obtain ⟨fs, rec⟩ := p
      show ∃ tail,
        (match process_audio intellEst scorer fs rec
            (match trial.channels with
              | some t => ChanArg.tup t
              | none => ChanArg.str (cl "rx_voice"))
            (wnumOf (pathJoin audio_path (rxClipName n trial.Filename))) with
          | (paEvents, Except.error e) =>
            (Event.progress "proc" T n :: paEvents, Except.error e)
          | (paEvents, Except.ok new_dat) =>
            if intellEst = "trial" then
              (Event.progress "proc" T n :: paEvents,
                Except.ok (⟨⟨trial.Timestamp, trial.Filename, new_dat.channels,
                  trial.Over_runs, trial.Under_runs, new_dat.Intelligibility⟩,
                  [], [], [new_dat.Intelligibility]⟩ : PPStep))
            else
              match trial.channels with
              | none =>
                (Event.progress "proc" T n :: paEvents, Except.error (PyErr.keyError "channels"))
              | some t =>
                (Event.progress "proc" T n :: paEvents,
                  Except.ok (⟨⟨trial.Timestamp, trial.Filename, chansToStringT t,
                    trial.Over_runs, trial.Under_runs, trial.Intelligibility⟩,
                    [new_dat.voice], [new_dat.wnum], []⟩ : PPStep))).1 =
          Event.progress "proc" T n :: tail ∧ ∀ e ∈ tail, e.isProgress = false
      split
      · rename_i paEvents er heq
        exact ⟨paEvents, rfl, fun e he =>
          (process_audio_event_mem intellEst scorer fs rec _
            (wnumOf (pathJoin audio_path (rxClipName n trial.Filename))) e
            (by rw [heq]; exact he)).1⟩
      · rename_i paEvents new_dat heq
        have hmem : ∀ e ∈ paEvents, e.isProgress = false := fun e he =>
          (process_audio_event_mem intellEst scorer fs rec _
            (wnumOf (pathJoin audio_path (rxClipName n trial.Filename))) e
            (by rw [heq]; exact he)).1
        by_cases htr : intellEst = "trial"
        · rw [if_pos htr]
          exact ⟨paEvents, rfl, hmem⟩
        · rw [if_neg htr]
          cases trial.channels with
          | none => exact ⟨paEvents, rfl, hmem⟩
          | some t => exact ⟨paEvents, rfl, hmem⟩

theorem ppLoop_tags (intellEst : String) (scorer : Scorer) (wnumOf : List Char → Nat)
    (audioGet : List Char → Except PyErr (Nat × RecData)) (audio_path : List Char)
    (T : Nat) (dat : List LoadedRow) :
    ∀ n e, e ∈ (ppLoop intellEst scorer wnumOf audioGet audio_path T n dat).events →
      e.isProgress = true → progressTag e = "proc" := by
  induction dat with
  | nil =>
    intro n e he _
    cases he
  | cons trial rest ih =>
    intro n e he hp
    obtain ⟨tail, hshape, htail⟩ :=
      ppTrialStep_events_shape intellEst scorer wnumOf audioGet audio_path T n trial
    revert he
    show e ∈ (ppLoop intellEst scorer wnumOf audioGet audio_path T n (trial :: rest)).events → _
    unfold ppLoop
    cases hstep : ppTrialStep intellEst scorer wnumOf audioGet audio_path T n trial with
    | mk evs stepE =>
      have hevs : evs = Event.progress "proc" T n :: tail := by
        rw [hstep] at hshape
        exact hshape
      cases stepE with
      | error er =>
        intro he
        subst hevs
        rcases List.mem_cons.mp he with rfl | hmem
        · rfl
        · rw [htail e hmem] at hp
          exact Bool.noConfusion hp
      | ok st =>
        intro he
        rcases List.mem_append.mp he with hmem | hmem
        · subst hevs
          rcases List.mem_cons.mp hmem with rfl | hmem2
          · rfl
          · rw [htail e hmem2] at hp
            exact Bool.noConfusion hp
        · exact ih (n + 1) e hmem hp

theorem post_process_tags (intellEst : String) (scorer : Scorer) (wnumOf : List Char → Nat)
    (audioGet : List Char → Except PyErr (Nat × RecData)) (audio_path : List Char)
    (T : Nat) (dat : List LoadedRow) :
    ∀ e ∈ (post_process intellEst scorer wnumOf audioGet audio_path T dat).events,
      e.isProgress = true → progressTag e = "proc" := by
  intro e he hp
  have hloop := ppLoop_tags intellEst scorer wnumOf audioGet audio_path T dat 0 e
  revert he
  unfold post_process
  cases hll : ppLoop intellEst scorer wnumOf audioGet audio_path T 0 dat with
  | mk events rows speech clip_num success err =>
    rw [hll] at hloop
    cases err with
    | some er => exact fun he => hloop he hp
    | none =>
      show e ∈ (if intellEst = "aggregate" then
          (⟨events ++ [Event.scoreBatch speech clip_num], rows,
            Except.ok (some (scorer.processBatch speech clip_num).1)⟩ : PPResult)
        else
          (⟨events, rows,
            Except.ok ((meanOpt success).map scorer.guess_correction)⟩ : PPResult)).events →
        progressTag e = "proc"
      by_cases hagg : intellEst = "aggregate"
      · rw [if_pos hagg]
        intro he
        rcases List.mem_append.mp he with hmem | hmem
        · exact hloop hmem hp
        · rcases List.mem_singleton.mp hmem with rfl
          exact Bool.noConfusion hp
      · rw [if_neg hagg]
        exact fun he => hloop he hp

theorem run_progress_tags (st : MeasureState) (env : RunEnv) :
    ∀ e ∈ (run st env).events, e.isProgress = true →
      progressTag e = "test" ∨ progressTag e = "proc" := by
  intro e he hp
  revert he
  unfold run
  by_cases h1 : env.sample_rate ≠ abcmrt_fs
  · rw [if_pos h1]
    intro he
    cases he
  rw [if_neg h1]
  by_cases h2 : cl "tx_voice" ∉ env.playback_chans
  · rw [if_pos h2]
    intro he
    cases he
  rw [if_neg h2]
  by_cases h3 : cl "rx_voice" ∉ env.rec_chan_keys
  · rw [if_pos h3]
    intro he
    cases he
  rw [if_neg h3]
  by_cases h4 : env.clipNames = []
  · rw [if_pos h4]
    intro he
    cases he
  rw [if_neg h4]
  have hcapTags := captureFrom_tags st.intell_est env st.trials st.trials 0
  cases hc : captureFrom st.intell_est env st.trials 0 st.trials with
  | mk evs rows err =>
    rw [hc] at hcapTags
    cases err with
    | some er => exact fun he => Or.inl (hcapTags e he hp)
    | none =>
      show e ∈ (if st.intell_est = "aggregate" then
          match loadRows rows with
          | Except.error er => (⟨st, rows, [], evs, .error er⟩ : RunOut)
          | Except.ok dat =>
            ⟨⟨st.intell_est, dat.length⟩, rows,
              (post_process "aggregate" env.scorer env.wnumOf env.audioGet
                env.wavdir dat.length dat).rows,
              evs ++ (post_process "aggregate" env.scorer env.wnumOf env.audioGet
                env.wavdir dat.length dat).events,
              (post_process "aggregate" env.scorer env.wnumOf env.audioGet
                env.wavdir dat.length dat).ret⟩
        else if st.intell_est = "trial" then
          match loadRows rows with
          | Except.error er => (⟨st, rows, rows, evs, .error er⟩ : RunOut)
          | Except.ok dat =>
            ⟨⟨"none", dat.length⟩, rows, rows,
              evs ++ (post_process "none" env.scorer env.wnumOf env.audioGet
                env.wavdir dat.length dat).events,
              (post_process "none" env.scorer env.wnumOf env.audioGet
                env.wavdir dat.length dat).ret⟩
        else
          (⟨st, rows, rows, evs, .ok none⟩ : RunOut)).events →
        progressTag e = "test" ∨ progressTag e = "proc"
      by_cases hagg : st.intell_est = "aggregate"
      · rw [if_pos hagg]
        cases hload : loadRows rows with
        | error er => exact fun he => Or.inl (hcapTags e he hp)
        | ok dat =>
          intro he
          rcases List.mem_append.mp he with hmem | hmem
          · exact Or.inl (hcapTags e hmem hp)
          · exact Or.inr (post_process_tags "aggregate" env.scorer env.wnumOf env.audioGet
              env.wavdir dat.length dat e hmem hp)
      · rw [if_neg hagg]
        by_cases htr : st.intell_est = "trial"
        · rw [if_pos htr]
          cases hload : loadRows rows with
          | error er => exact fun he => Or.inl (hcapTags e he hp)
          | ok dat =>
            intro he
            rcases List.mem_append.mp he with hmem | hmem
            · exact Or.inl (hcapTags e hmem hp)
            · exact Or.inr (post_process_tags "none" env.scorer env.wnumOf env.audioGet
                env.wavdir dat.length dat e hmem hp)
        · rw [if_neg htr]
          exact fun he => Or.inl (hcapTags e he hp)

/-- C9 (amended): every progress-callback invocation made by `run` or
`post_process` passes the tag `'test'` (capture loop) or `'proc'`
(post-processing) — not `"running"`/`"processing"` — together with the total
trial count and the current index; and in the capture loop a `False` return
from the callback stops the run at that trial boundary (the loop exits with
only that final invocation recorded and no further row).  During
post-processing the callback's return value is not consulted. -/
theorem progress_callback_contract :
    (∀ (st : MeasureState) (env : RunEnv), ∀ e ∈ (run st env).events,
      e.isProgress = true → progressTag e = "test" ∨ progressTag e = "proc") ∧
    (∀ (intellEst : String) (scorer : Scorer) (wnumOf : List Char → Nat)
      (audioGet : List Char → Except PyErr (Nat × RecData)) (audio_path : List Char)
      (T : Nat) (dat : List LoadedRow),
      ∀ e ∈ (post_process intellEst scorer wnumOf audioGet audio_path T dat).events,
        e.isProgress = true → progressTag e = "proc") ∧
    (∀ (mode : String) (env : RunEnv) (N idx rem : Nat),
      env.cont "test" N idx = false →
      captureFrom mode env N idx (rem + 1) = ⟨[Event.progress "test" N idx], [], none⟩) := by
  refine ⟨run_progress_tags, post_process_tags, ?_⟩
  intro mode env N idx rem h
  unfold captureFrom
  rw [if_pos h]

/-- Concrete run environment whose callback cancels immediately. -/
def envC : RunEnv :=
  ⟨abcmrt_fs, [cl "tx_voice"], [cl "rx_voice"], [cl "F1"], fun _ => 0, cl "wav",
   fun _ => cl "ts", fun _ => abcmrt_fs, fun _ => .mono [0], fun _ => [cl "rx_voice"],
   fun _ => 7, fun _ _ _ => false, constScorer, fun _ => .ok (abcmrt_fs, .mono [0])⟩

/-- C9 witness: the amended contract evaluated on a concrete 1-trial run, a
concrete 1-row post-processing pass, and a concrete cancelled capture loop. -/
theorem progress_callback_contract_witness :
    (progressTag (Event.progress "test" 1 0) = "test" ∨
      progressTag (Event.progress "test" 1 0) = "proc") ∧
    (progressTag (Event.progress "proc" 1 0) = "proc") ∧
    captureFrom "none" envC 1 0 1 = ⟨[Event.progress "test" 1 0], [], none⟩ :=
  ⟨progress_callback_contract.1 ⟨"none", 1⟩ envW (Event.progress "test" 1 0)
      (by decide) rfl,
    progress_callback_contract.2.1 "none" constScorer (fun _ => 5)
      (fun _ => .ok (abcmrt_fs, .mono [0])) (cl "wav") 1 [rowA]
      (Event.progress "proc" 1 0) (by decide) rfl,
    progress_callback_contract.2.2 "none" envC 1 0 0 rfl⟩

/-- C9 counterexample: the capture loop invokes the progress callback with
the tag `'test'`, which is neither `"running"` nor `"processing"` as the
claim states. -/
theorem progress_callback_counterexample :
    Event.progress "test" 1 0 ∈ (run ⟨"none", 1⟩ envW).events ∧
    progressTag (Event.progress "test" 1 0) ≠ "running" ∧
    progressTag (Event.progress "test" 1 0) ≠ "processing" :=
  ⟨by decide, by decide, by decide⟩

/-! ## StatisticalEvaluator
`evaluate.eval` (intelligibility_eval.py lines 189-220) is in src/; the
bootstrap it calls, `mcvqoe.math.bootstrap_ci`, is an external collaborator,
so the resampling below is modelled from the spec (section 4.7 and the
`StatisticalDegeneracy` entry of section 7) with an injectable random source:
a resampling plan, one list of data indices per bootstrap resample. -/

/-- Sorted insertion into a sorted list of rationals. -/
def insertQ (x : ℚ) : List ℚ → List ℚ
  | [] => [x]
  | y :: ys => if x ≤ y then x :: y :: ys else y :: insertQ x ys

/-- Insertion sort over `ℚ`. -/
def sortQ (xs : List ℚ) : List ℚ := xs.foldr insertQ []

/-- Modelled from the spec: empirical quantile of a sample with linear
interpolation between order statistics (`np.quantile` default). -/
def quantileQ (xs : List ℚ) (q : ℚ) : ℚ :=
  let s := sortQ xs
  let pos : ℚ := q * ((s.length : ℚ) - 1)
  let i : Nat := (Int.toNat ⌊pos⌋)
  let a := s.getD i 0
  let b := s.getD (i + 1) a
  a + (pos - (i : ℚ)) * (b - a)

/-- Modelled from the spec: sample variance of a resample with one delta
degree of freedom (`np.var(..., ddof=1)`). -/
def sampleVarQ (xs : List ℚ) : ℚ :=
  (xs.map (fun x => (x - meanQ xs) ^ 2)).sum / ((xs.length : ℚ) - 1)

/-- Modelled from the spec: one bootstrap resample drawn by the injected
random source (a list of indices into the data column). -/
def resampleAt (data : List ℚ) (idxs : List Nat) : List ℚ :=
  idxs.map (fun i => data.getD i 0)

/-- Modelled from the spec: the means of all resamples of the plan. -/
def resampleMeans (data : List ℚ) (plan : List (List Nat)) : List ℚ :=
  plan.map (fun idxs => meanQ (resampleAt data idxs))

/-- Modelled from the spec: the studentized statistic of one resample; a
zero-variance resample makes the denominator zero — the floating-point
divide error that `eval` guards against with `errstate(divide='raise')`. -/
def studStat (data : List ℚ) (idxs : List Nat) : Except PyErr ℚ :=
  if sampleVarQ (resampleAt data idxs) = 0 then
    .error (.floatingPointError "divide by zero encountered")
  else
    .ok ((meanQ (resampleAt data idxs) - meanQ data) / sampleVarQ (resampleAt data idxs))

/-- Modelled from the spec: percentile-bootstrap confidence interval at level
`p` — the `(1-p)/2` and `(1+p)/2` empirical quantiles of the resampled
means. -/
def percentileCI (data : List ℚ) (p : ℚ) (plan : List (List Nat)) : ℚ × ℚ :=
  (quantileQ (resampleMeans data plan) ((1 - p) / 2),
   quantileQ (resampleMeans data plan) ((1 + p) / 2))

/-- Modelled from the spec: `mcvqoe.math.bootstrap_ci` (external to src/).
Method `'t'` computes the studentized statistic of every resample — raising
on a zero-variance resample — and centers the interval on the sample mean;
any other method is the percentile bootstrap. -/
def bootstrap_ci (data : List ℚ) (p : ℚ) (method : String) (plan : List (List Nat)) :
    Except PyErr (ℚ × ℚ) :=
  if method = "t" then
    match plan.mapM (studStat data) with
    | .error e => .error e
    | .ok stats =>
      .ok (meanQ data - quantileQ stats ((1 + p) / 2) * (sampleVarQ data / data.length),
        meanQ data - quantileQ stats ((1 - p) / 2) * (sampleVarQ data / data.length))
  else
    .ok (percentileCI data p plan)

theorem bootstrap_ci_percentile (data : List ℚ) (p : ℚ) (plan : List (List Nat)) :
    bootstrap_ci data p "percentile" plan = .ok (percentileCI data p plan) := by
  unfold bootstrap_ci
  rw [if_neg (by decide)]

/-- Result of `evaluate.eval`: the mean, the confidence interval, and whether
the percentile fallback warning fired. -/
structure EvalOut : Type where
  mean : ℚ
  ci : ℚ × ℚ
  warned : Bool
  deriving Repr, DecidableEq

/-- Embedding of `evaluate.eval` (intelligibility_eval.py lines 189-220):
`np.mean` of the Intelligibility column, then `bootstrap_ci` with the
studentized method under `errstate(divide='raise')`; a `FloatingPointError`
is caught, a warning issued, and a percentile bootstrap run at the same
confidence level (the two plans stand for the two independent random
draws). -/
def evalModel (data : List ℚ) (p : ℚ) (planT planP : List (List Nat)) : EvalOut :=
  match bootstrap_ci data p "t" planT with
  | .ok ci => ⟨meanQ data, ci, false⟩
  | .error _ => ⟨meanQ data, percentileCI data p planP, true⟩

theorem meanQ_all_eq (c : ℚ) (xs : List ℚ) (hne : xs ≠ []) (hall : ∀ x ∈ xs, x = c) :
    meanQ xs = c := by
  have hsum : xs.sum = xs.length • c := List.sum_eq_card_nsmul xs c hall
  have hlen : (0 : ℚ) < xs.length := by
    have : 0 < xs.length := List.length_pos.mpr hne
    exact_mod_cast this
  unfold meanQ
  rw [hsum, nsmul_eq_mul]
  field_simp

theorem resampleAt_all_eq (c : ℚ) (data : List ℚ) (idxs : List Nat)
    (hall : ∀ x ∈ data, x = c) (hidx : ∀ i ∈ idxs, i < data.length) :
    ∀ x ∈ resampleAt data idxs, x = c := by
  intro x hx
  unfold resampleAt at hx
  obtain ⟨i, hi, hx⟩ := List.mem_map.mp hx
  have hlt := hidx i hi
  rw [List.getD_eq_getElem data 0 hlt] at hx
  exact hx ▸ hall _ (List.getElem_mem hlt)

theorem sampleVarQ_all_eq (c : ℚ) (xs : List ℚ) (hall : ∀ x ∈ xs, x = c) :
    sampleVarQ xs = 0 := by
  unfold sampleVarQ
  rcases eq_or_ne xs [] with h | h
  · subst h; simp
  · have hm := meanQ_all_eq c xs h hall
    have : (xs.map (fun x => (x - meanQ xs) ^ 2)).sum = 0 := by
      apply List.sum_eq_zero
      intro y hy
      obtain ⟨x, hx, hxy⟩ := List.mem_map.mp hy
      rw [← hxy, hall x hx, hm]
      ring
    rw [this, zero_div]

theorem studStat_all_eq (c : ℚ) (data : List ℚ) (idxs : List Nat)
    (hall : ∀ x ∈ data, x = c) (hidx : ∀ i ∈ idxs, i < data.length) :
    studStat data idxs = .error (.floatingPointError "divide by zero encountered") := by
  unfold studStat
  rw [if_pos (sampleVarQ_all_eq c _ (resampleAt_all_eq c data idxs hall hidx))]

theorem insertQ_length (x : ℚ) (l : List ℚ) : (insertQ x l).length = l.length + 1 := by
  induction l with
  | nil => rfl
  | cons y ys ih =>
    unfold insertQ
    split
    · simp
    · simp [ih]

theorem mem_insertQ (x y : ℚ) (l : List ℚ) (h : y ∈ insertQ x l) : y = x ∨ y ∈ l := by
  induction l with
  | nil =>
    unfold insertQ at h
    exact .inl (List.mem_singleton.mp h)
  | cons z zs ih =>
    unfold insertQ at h
    split at h
    · rcases List.mem_cons.mp h with h | h
      · exact .inl h
      · exact .inr h
    · rcases List.mem_cons.mp h with h | h
      · exact .inr (List.mem_cons.mpr (.inl h))
      · rcases ih h with h | h
        · exact .inl h
        · exact .inr (List.mem_cons.mpr (.inr h))

theorem sortQ_length (xs : List ℚ) : (sortQ xs).length = xs.length := by
  induction xs with
  | nil => rfl
  | cons y ys ih =>
    show (insertQ y (sortQ ys)).length = ys.length + 1
    rw [insertQ_length, ih]

theorem mem_sortQ (y : ℚ) (xs : List ℚ) (h : y ∈ sortQ xs) : y ∈ xs := by
  induction xs with
  | nil => simp [sortQ] at h
  | cons z zs ih =>
    have h' : y ∈ insertQ z (sortQ zs) := h
    rcases mem_insertQ z y _ h' with h | h
    · exact List.mem_cons.mpr (.inl h)
    · exact List.mem_cons.mpr (.inr (ih h))

theorem quantileQ_all_eq (c : ℚ) (xs : List ℚ) (q : ℚ) (hne : xs ≠ [])
    (hall : ∀ x ∈ xs, x = c) (hq0 : 0 ≤ q) (hq1 : q ≤ 1) :
    quantileQ xs q = c := by
  simp only [quantileQ]
  have hlen : 0 < (sortQ xs).length := by
    rw [sortQ_length]; exact List.length_pos.mpr hne
  have halls : ∀ x ∈ sortQ xs, x = c := fun x hx => hall x (mem_sortQ x xs hx)
  set s := sortQ xs with hs
  set pos : ℚ := q * ((s.length : ℚ) - 1) with hpos
  have hpos0 : 0 ≤ pos := by
    apply mul_nonneg hq0
    have : (1 : ℚ) ≤ (s.length : ℚ) := by exact_mod_cast hlen
    linarith
  have hposle : pos ≤ (s.length : ℚ) - 1 := by
    have h1 : (0 : ℚ) ≤ (s.length : ℚ) - 1 := by
      have : (1 : ℚ) ≤ (s.length : ℚ) := by exact_mod_cast hlen
      linarith
    calc pos = q * ((s.length : ℚ) - 1) := rfl
    _ ≤ 1 * ((s.length : ℚ) - 1) := mul_le_mul_of_nonneg_right hq1 h1
    _ = (s.length : ℚ) - 1 := one_mul _
  have hi : (Int.toNat ⌊pos⌋) < s.length := by
    have h0 : 0 ≤ ⌊pos⌋ := Int.floor_nonneg.mpr hpos0
    have h2 : (⌊pos⌋ : ℚ) ≤ (s.length : ℚ) - 1 := le_trans (Int.floor_le pos) hposle
    have h3 : ⌊pos⌋ ≤ (s.length : ℤ) - 1 := by exact_mod_cast h2
    omega
  have ha : s.getD (Int.toNat ⌊pos⌋) 0 = c := by
    rw [List.getD_eq_getElem s 0 hi]
    exact halls _ (List.getElem_mem hi)
  have hb : s.getD (Int.toNat ⌊pos⌋ + 1) (s.getD (Int.toNat ⌊pos⌋) 0) = c := by
    rcases lt_or_ge (Int.toNat ⌊pos⌋ + 1) s.length with h | h
    · rw [List.getD_eq_getElem s _ h]
      exact halls _ (List.getElem_mem h)
    · rw [List.getD_eq_default _ _ h, ha]
  rw [ha] at hb ⊢
  rw [hb]
  ring

theorem resampleMeans_all_eq (c : ℚ) (data : List ℚ) (plan : List (List Nat))
    (hall : ∀ x ∈ data, x = c)
    (hplan : ∀ idxs ∈ plan, idxs ≠ [] ∧ ∀ i ∈ idxs, i < data.length) :
    ∀ m ∈ resampleMeans data plan, m = c := by
  intro m hm
  unfold resampleMeans at hm
  obtain ⟨idxs, hidxs, hm⟩ := List.mem_map.mp hm
  obtain ⟨hne, hrange⟩ := hplan idxs hidxs
  have hne' : resampleAt data idxs ≠ [] := by
    unfold resampleAt
    simpa using hne
  rw [← hm]
  exact meanQ_all_eq c _ hne' (resampleAt_all_eq c data idxs hall hrange)

theorem percentileCI_all_eq (c : ℚ) (data : List ℚ) (p : ℚ) (plan : List (List Nat))
    (hall : ∀ x ∈ data, x = c) (hpne : plan ≠ [])
    (hplan : ∀ idxs ∈ plan, idxs ≠ [] ∧ ∀ i ∈ idxs, i < data.length)
    (hp0 : 0 ≤ p) (hp1 : p ≤ 1) :
    percentileCI data p plan = (c, c) := by
  have hne : resampleMeans data plan ≠ [] := by
    unfold resampleMeans
    simpa using hpne
  have hmeans := resampleMeans_all_eq c data plan hall hplan
  unfold percentileCI
  rw [quantileQ_all_eq c _ _ hne hmeans (by linarith) (by linarith),
    quantileQ_all_eq c _ _ hne hmeans (by linarith) (by linarith)]

theorem bootstrap_t_degenerate (c : ℚ) (data : List ℚ) (p : ℚ)
    (idxs : List Nat) (rest : List (List Nat))
    (hall : ∀ x ∈ data, x = c) (hrange : ∀ i ∈ idxs, i < data.length) :
    bootstrap_ci data p "t" (idxs :: rest) =
      .error (.floatingPointError "divide by zero encountered") := by
  unfold bootstrap_ci
  rw [if_pos rfl, List.mapM_cons, studStat_all_eq c data idxs hall hrange]
  rfl

/-- **C6** (amended). `evaluate.eval` on a degenerate score column (all scores
equal, here all `c`): the studentized bootstrap hits a zero-variance resample,
the raised `FloatingPointError` is caught rather than propagated, the caller
is notified (the warning flag is set), and a percentile bootstrap at the
*same* confidence level `p` supplies the interval — which for such data is the
point interval `(c, c)`, so `ci.1 ≤ mean ≤ ci.2` does hold here. The original
claim's unconditional containment `ci[0] ≤ mean ≤ ci[1]` is refuted by
`eval_counterexample`. -/
theorem eval_degenerate_fallback (data : List ℚ) (c p : ℚ)
    (idxs : List Nat) (rest planP : List (List Nat))
    (hdat : data ≠ []) (hall : ∀ x ∈ data, x = c)
    (hrange : ∀ i ∈ idxs, i < data.length)
    (hP : planP ≠ [])
    (hPn : ∀ js ∈ planP, js ≠ [] ∧ ∀ i ∈ js, i < data.length)
    (hp0 : 0 ≤ p) (hp1 : p ≤ 1) :
    evalModel data p (idxs :: rest) planP = ⟨c, (c, c), true⟩ ∧
    (evalModel data p (idxs :: rest) planP).ci.1 ≤
      (evalModel data p (idxs :: rest) planP).mean ∧
    (evalModel data p (idxs :: rest) planP).mean ≤
      (evalModel data p (idxs :: rest) planP).ci.2 := by
  have hmain : evalModel data p (idxs :: rest) planP = ⟨c, (c, c), true⟩ := by
    unfold evalModel
    rw [bootstrap_t_degenerate c data p idxs rest hall hrange]
    rw [meanQ_all_eq c data hdat hall,
      percentileCI_all_eq c data p planP hall hP hPn hp0 hp1]
  refine ⟨hmain, ?_, ?_⟩ <;> rw [hmain]

theorem eval_degenerate_fallback_witness :
    evalModel [(1:ℚ)/2, 1/2] (95/100) [[0, 1]] [[0, 1]] = ⟨1/2, (1/2, 1/2), true⟩ :=
  (eval_degenerate_fallback [(1:ℚ)/2, 1/2] (1/2) (95/100) [0, 1] [] [[0, 1]]
    (by simp) (by simp) (by decide) (by simp) (by decide)
    (by norm_num) (by norm_num)).1

/-- **C6** counterexample to the original claim: the score column `[0, 1]` is
non-degenerate (`0 ≠ 1`), yet with an (injected) resampling draw whose every
resample picks index 0 twice, the studentized bootstrap degenerates, the
percentile fallback fires, and the returned interval is `(0, 0)` while the
mean is `1/2` — the mean lies outside the confidence interval, refuting
`ci[0] <= mean <= ci[1]`. -/
theorem eval_counterexample :
    ((0 : ℚ) ≠ 1) ∧
    evalModel [(0 : ℚ), 1] (95/100) [[0, 0]] [[0, 0]] = ⟨1/2, (0, 0), true⟩ ∧
    ¬((evalModel [(0 : ℚ), 1] (95/100) [[0, 0]] [[0, 0]]).ci.1 ≤
        (evalModel [(0 : ℚ), 1] (95/100) [[0, 0]] [[0, 0]]).mean ∧
      (evalModel [(0 : ℚ), 1] (95/100) [[0, 0]] [[0, 0]]).mean ≤
        (evalModel [(0 : ℚ), 1] (95/100) [[0, 0]] [[0, 0]]).ci.2) := by
  have hres : resampleAt [(0 : ℚ), 1] [0, 0] = [0, 0] := by
    unfold resampleAt
    rfl
  have hstud : studStat [(0 : ℚ), 1] [0, 0] =
      .error (.floatingPointError "divide by zero encountered") := by
    unfold studStat
    rw [hres, if_pos (sampleVarQ_all_eq 0 [(0 : ℚ), 0] (by simp))]
  have hboot : bootstrap_ci [(0 : ℚ), 1] (95/100) "t" [[0, 0]] =
      .error (.floatingPointError "divide by zero encountered") := by
    unfold bootstrap_ci
    rw [if_pos rfl, List.mapM_cons, hstud]
    rfl
  have hmean : meanQ [(0 : ℚ), 1] = 1/2 := by
    unfold meanQ
    norm_num
  have hrm : resampleMeans [(0 : ℚ), 1] [[0, 0]] = [0] := by
    unfold resampleMeans
    rw [List.map_cons, List.map_nil, hres,
      meanQ_all_eq 0 [(0 : ℚ), 0] (by simp) (by simp)]
  have hper : percentileCI [(0 : ℚ), 1] (95/100) [[0, 0]] = (0, 0) := by
    unfold percentileCI
    rw [hrm, quantileQ_all_eq 0 [(0 : ℚ)] _ (by simp) (by simp) (by norm_num) (by norm_num),
      quantileQ_all_eq 0 [(0 : ℚ)] _ (by simp) (by simp) (by norm_num) (by norm_num)]
  have heval : evalModel [(0 : ℚ), 1] (95/100) [[0, 0]] [[0, 0]] = ⟨1/2, (0, 0), true⟩ := by
    unfold evalModel
    rw [hboot, hmean, hper]
  refine ⟨by norm_num, heval, ?_⟩
  rw [heval]
  norm_num
